import Mathlib

/-!
# The stereo visual-odometry front end (`ch13/src/frontend.cpp`)

A shallow embedding of `myslam::Frontend`: the tracking status machine
(`AddFrame`, `Track`, `Reset`), the stereo initialiser (`StereoInit`,
`DetectFeatures`, `FindFeaturesInRight`, `BuildInitMap`), the frame tracker
(`TrackLastFrame`), the motion-only pose estimator (`EstimateCurrentPose`) and
the keyframe decider (`InsertKeyframe`).

Conventions of the embedding.

* Objects held through `std::shared_ptr<Frame>` live in a heap
  `frames : FramePtr → Frame`; a null pointer is `none`.  Dereferencing a null
  pointer and indexing a vector out of range are undefined behaviour in the
  source and make the embedded function return `none`; `some` is a run that
  ends.
* A `Feature` object is owned by exactly one slot of its frame's
  `features_left_` / `features_right_` vector (each is created by
  `std::make_shared` and pushed once), so the object is stored in the slot and a
  `Feature::Ptr` held elsewhere is the address of the slot (`FeaturePtr`).
* `std::weak_ptr<MapPoint>` is an optional address into the heap
  `mappoints : MapPointPtr → Option MapPoint`; `lock()` fails when the weak
  pointer is empty or the object is gone.
* `TrackLastFrame`, `FindFeaturesInRight` and one path of `InsertKeyframe`
  reach the closing brace of a function that is declared to return a value,
  which is undefined behaviour.  The source determines neither whether such a
  call returns nor what the caller receives: the outcome is a field of
  `Collaborators`, `none` when the call does not return (an optimising compiler
  emits no return instruction there) and `some v` when the caller receives the
  leftover value `v`.  What the body does before its closing brace is in the
  `_body` definitions.
* OpenCV, g2o, the camera model, `triangulation` and the feature detector are
  external: they are fields of `Collaborators`, functions of the arguments the
  source passes them.  `map_`, `camera_left_`, `camera_right_` and `gftt_` are
  taken to be set.
* The headers (frontend.h, frame.h, feature.h, mappoint.h, map.h) are not among
  the sources; the types below have the members the source file uses.
* Counts of type `int` and `size_t` are unbounded integers: feature counts are
  assumed to stay below `2^31`.
* Chi-square values of type `double` and pixel coordinates are rationals; the
  only operation the source applies to them is the comparison with `chi2_th`.
-/

namespace myslam

/-! ## Data model -/

/-- The C++ type `cv::Point2f`. -/
structure Point2f where
  x : ℚ
  y : ℚ
deriving DecidableEq

/-- The C++ type `cv::KeyPoint` (position and diameter). -/
structure KeyPoint where
  pt : Point2f
  size : ℚ
deriving DecidableEq

/-- The C++ type `Vec3`. -/
structure Vec3 where
  x : ℚ
  y : ℚ
  z : ℚ
deriving DecidableEq

/-- The C++ type `SE3` (a rigid transform), never inspected by the front end. -/
structure SE3 where
  coeffs : List ℚ
deriving DecidableEq

/-- The C++ type `Mat33` (camera intrinsics), never inspected by the front end. -/
structure Mat33 where
  coeffs : List ℚ
deriving DecidableEq

/-- The C++ type `cv::Mat` used for images, never inspected by the front end. -/
structure Mat where
  pixels : List Nat
deriving DecidableEq

/-- Address of a `Frame` object. -/
abbrev FramePtr := Nat

/-- Address of a `MapPoint` object. -/
abbrev MapPointPtr := Nat

/-- Which feature vector of a frame a feature sits in. -/
inductive Side where
  | left
  | right
deriving DecidableEq

/-- The value of a `Feature::Ptr`: the slot that owns the feature object. -/
structure FeaturePtr where
  frame : FramePtr
  side : Side
  index : Nat
deriving DecidableEq

/-- Modelled from the spec: the enum `FrontendStatus` of frontend.h, "one of
INITING, TRACKING_GOOD, TRACKING_BAD, LOST". -/
inductive FrontendStatus where
  | INITING
  | TRACKING_GOOD
  | TRACKING_BAD
  | LOST
deriving DecidableEq

/-- Modelled from the spec: the struct `Feature` of feature.h, with "pixel
position, owning frame reference, a non-owning (weak) reference to an
associated MapPoint (absent if none), an outlier flag". -/
structure Feature where
  frame_ : FramePtr
  position_ : KeyPoint
  map_point_ : Option MapPointPtr
  is_outlier_ : Bool
deriving DecidableEq

/-- Modelled from the spec: the constructor `Feature(frame, kp)` of feature.h
sets the owning frame and the position; the MapPoint reference is absent and
the outlier flag is clear. -/
def Feature.new (frame : FramePtr) (kp : KeyPoint) : Feature :=
  { frame_ := frame, position_ := kp, map_point_ := none, is_outlier_ := false }

/-- Modelled from the spec: the struct `Frame` of frame.h, with the pose, the
two images, the "ordered sequence of left-image Features" and the "ordered
sequence of right-image Features (positionally aligned with left; entries may
be absent ...)"; a null entry of `features_right_` is `none`. -/
structure Frame where
  pose_ : SE3
  left_img_ : Mat
  right_img_ : Mat
  features_left_ : List Feature
  features_right_ : List (Option Feature)
deriving DecidableEq

/-- Modelled from the spec: the struct `MapPoint` of mappoint.h, with "unique
id, 3D position, observation count, ordered collection of Feature references
that observe it". -/
structure MapPoint where
  id_ : Nat
  pos_ : Vec3
  observed_times_ : Int
  _observations : List FeaturePtr
deriving DecidableEq

/-- Modelled from the spec: the external `Map` (map.h is not part of the
sources) "accepts insertions from this core" through `insertMapPoint(point)`
and `insertKeyFrame(frame)`; it is the record of what was inserted, in order. -/
structure Map where
  landmarks_ : List MapPointPtr
  keyframes_ : List FramePtr
deriving DecidableEq

/-- The least-squares term an `EdgeProjectionPoseOnly` contributes: what the
solver reads of an edge. -/
structure EdgeTerm where
  id : Int
  pos3d : Vec3
  K : Mat33
  measurement : Point2f
  robustKernel : Bool
  level : Nat
deriving DecidableEq

/-- The C++ class `EdgeProjectionPoseOnly`: the term plus the chi-square of the
error vector cached in the edge, which `chi2()` reads. -/
structure EdgeProjectionPoseOnly extends EdgeTerm where
  chi2 : ℚ
deriving DecidableEq

/-- The external collaborators of the front end and the values the source leaves
undetermined. -/
structure Collaborators where
  /-- The call `gftt_->detect(image, keypoints)`. -/
  detect : Mat → List KeyPoint
  /-- The call `cv::calcOpticalFlowPyrLK(prev, next, prevPts, nextPts, status, error)`:
  the resulting `status` and `nextPts`. -/
  calcOpticalFlowPyrLK : Mat → Mat → List Point2f → List Point2f → List Bool × List Point2f
  /-- The call `camera_right_->world2pixel(p, pose)`. -/
  right_world2pixel : Vec3 → SE3 → Point2f
  /-- The call `camera_left_->pixel2camera(px)`. -/
  left_pixel2camera : Point2f → Vec3
  /-- The call `camera_right_->pixel2camera(px)`. -/
  right_pixel2camera : Point2f → Vec3
  /-- The value `camera_left_->pose()`. -/
  left_pose : SE3
  /-- The value `camera_right_->pose()`. -/
  right_pose : SE3
  /-- The value `camera_left_->K()`. -/
  left_K : Mat33
  /-- The call `triangulation(poses, points, pworld)`: the final `pworld`. -/
  triangulation : List SE3 → List Vec3 → Vec3 → Vec3
  /-- The calls `initializeOptimization(); optimize(n)` on a graph whose pose
  vertex holds the given estimate: the new estimate, and for the edge at each
  position the chi-square of the error the solve leaves cached in it (only edges
  of level 0 take part in the solve and are written). -/
  optimize : SE3 → List EdgeTerm → Nat → SE3 × (Nat → ℚ)
  /-- The calls `e->computeError(); e->chi2()` under the given vertex estimate. -/
  computeError : SE3 → EdgeTerm → ℚ
  /-- The outcome of a call of `TrackLastFrame` once its body has reached the
  closing brace without a `return` statement: `none` when the call does not
  return, `some v` when the caller receives the `int` `v`. -/
  TrackLastFrame_value : Option Int
  /-- The outcome of a call of `FindFeaturesInRight` once its body has reached
  the closing brace without a `return` statement: `none` when the call does not
  return, `some v` when the caller receives the `int` `v`. -/
  FindFeaturesInRight_value : Option Int
  /-- The outcome of a call of `InsertKeyframe` once control has reached the
  closing brace of its body: `none` when the call does not return, `some b`
  when the caller receives the `bool` `b`. -/
  InsertKeyframe_value : Option Bool

/-- The state of the program: the members of `Frontend` that the source file
uses, the two heaps, the counter of `MapPoint::CreateNewMappoint` and the map.
Modelled from the spec: the four thresholds are declared in frontend.h, they
are the "initialization minimum correspondence count, tracking-good/bad
thresholds, keyframe feature-count threshold"; the three that the source
compares with an `int` are integers, the one it compares with a vector size is
a count. -/
structure Frontend where
  status_ : FrontendStatus
  current_frame_ : Option FramePtr
  last_frame_ : Option FramePtr
  num_features_init_ : Int
  num_features_tracking_ : Int
  num_features_tracking_bad_ : Int
  num_features_needed_for_keyframe_ : Nat
  frames : FramePtr → Frame
  mappoints : MapPointPtr → Option MapPoint
  factory_id : Nat
  map_ : Map

namespace Frontend

/-! ## Heap helpers -/

/-- Store `F` in the frame object at address `p`. -/
def setFrame (s : Frontend) (p : FramePtr) (F : Frame) : Frontend :=
  { s with frames := Function.update s.frames p F }

/-- The statement `frame->features_left_.push_back(feature)`. -/
def pushLeft (s : Frontend) (p : FramePtr) (f : Feature) : Frontend :=
  s.setFrame p { s.frames p with features_left_ := (s.frames p).features_left_ ++ [f] }

/-- The statement `frame->features_right_.push_back(feature)`; `none` is `nullptr`. -/
def pushRight (s : Frontend) (p : FramePtr) (f : Option Feature) : Frontend :=
  s.setFrame p { s.frames p with features_right_ := (s.frames p).features_right_ ++ [f] }

/-- The call `w.lock()` on a `std::weak_ptr<MapPoint>`. -/
def lock (s : Frontend) (w : Option MapPointPtr) : Option MapPoint :=
  w.bind s.mappoints

/-- Modelled from the spec: `MapPoint::CreateNewMappoint` (mappoint.h is not
part of the sources) yields a new MapPoint with a unique id; it has no
observation yet, since the initialiser gives it "exactly two initial
observations".  The id is also the address of the new object. -/
def CreateNewMappoint (s : Frontend) : Frontend × MapPointPtr :=
  ({ s with
      mappoints := Function.update s.mappoints s.factory_id
        (some { id_ := s.factory_id, pos_ := ⟨0, 0, 0⟩, observed_times_ := 0,
                _observations := [] })
      factory_id := s.factory_id + 1 },
   s.factory_id)

/-- Modelled from the spec: `map_->InsertMapPoint(point)` of the external Map. -/
def InsertMapPoint (s : Frontend) (p : MapPointPtr) : Frontend :=
  { s with map_ := { s.map_ with landmarks_ := s.map_.landmarks_ ++ [p] } }

/-- Modelled from the spec: `map_->InsertKeyFrame(frame)` of the external Map. -/
def InsertKeyFrame (s : Frontend) (p : FramePtr) : Frontend :=
  { s with map_ := { s.map_ with keyframes_ := s.map_.keyframes_ ++ [p] } }

/-! ## `Reset`, `InsertKeyframe` -/

/-- The function `Frontend::Reset`: `return true;`. -/
def Reset (s : Frontend) : Option (Frontend × Bool) :=
  some (s, true)

/-- The function `Frontend::InsertKeyframe`: with enough left features it
returns `false`; otherwise control reaches the end of the body, which contains
no statement and no `return`. -/
def InsertKeyframe (env : Collaborators) (s : Frontend) : Option (Frontend × Bool) := do
  let cur ← s.current_frame_
  if (s.frames cur).features_left_.length ≥ s.num_features_needed_for_keyframe_ then
    -- still have enough features, don't insert keyframe
    pure (s, false)
  else
    let b ← env.InsertKeyframe_value
    pure (s, b)

/-! ## `TrackLastFrame` -/

/-- One round of the loop `for (i = 0; i < status.size(); ++i)` of
`TrackLastFrame`; `ist` is `(i, status[i])`. -/
def TrackLastFrame_step (last cur : FramePtr) (kps_current : List Point2f)
    (acc : Frontend × Int) (ist : Nat × Bool) : Option (Frontend × Int) :=
  if ist.2 then do
    let pt ← kps_current[ist.1]?
    let src ← (acc.1.frames last).features_left_[ist.1]?
    let feature : Feature := { Feature.new cur ⟨pt, 7⟩ with map_point_ := src.map_point_ }
    pure (acc.1.pushLeft cur feature, acc.2 + 1)
  else
    pure acc

/-- The body of `Frontend::TrackLastFrame` up to its closing brace: the state
and the local `num_good_pts` (which is only logged). -/
def TrackLastFrame_body (env : Collaborators) (s : Frontend) : Option (Frontend × Int) := do
  let last ← s.last_frame_
  let cur ← s.current_frame_
  let kps_last := (s.frames last).features_left_.map fun kp => kp.position_.pt
  let lk := env.calcOpticalFlowPyrLK (s.frames last).left_img_ (s.frames cur).left_img_
    kps_last []
  lk.1.enum.foldlM (TrackLastFrame_step last cur lk.2) (s, 0)

/-- The function `Frontend::TrackLastFrame`: its body, then the closing brace
of an `int` function without any `return`.  When the call returns at all, the
caller has the state the body left and an `int` that is not `num_good_pts`,
since nothing is returned. -/
def TrackLastFrame (env : Collaborators) (s : Frontend) : Option (Frontend × Int) := do
  let r ← TrackLastFrame_body env s
  let v ← env.TrackLastFrame_value
  pure (r.1, v)

/-! ## Stereo initialisation -/

/-- The function `Frontend::DetectFeatures`. -/
def DetectFeatures (env : Collaborators) (s : Frontend) : Option (Frontend × Int) := do
  let cur ← s.current_frame_
  let keypoints := env.detect (s.frames cur).left_img_
  let s1 := keypoints.foldl (fun st kp => st.pushLeft cur (Feature.new cur kp)) s
  pure (s1, keypoints.length)

/-- One round of the loop `for (i = 0; i < status.size(); ++i)` of
`FindFeaturesInRight`; `ist` is `(i, status[i])`. -/
def FindFeaturesInRight_step (cur : FramePtr) (kps_right : List Point2f)
    (acc : Frontend × Int) (ist : Nat × Bool) : Option (Frontend × Int) :=
  if ist.2 then do
    let pt ← kps_right[ist.1]?
    pure (acc.1.pushRight cur (some (Feature.new cur ⟨pt, 7⟩)), acc.2 + 1)
  else
    pure (acc.1.pushRight cur none, acc.2)

/-- The seed `FindFeaturesInRight` pushes onto `kps_right` for a left feature. -/
def rightSeed (env : Collaborators) (s : Frontend) (pose : SE3) (kp : Feature) : Point2f :=
  match s.lock kp.map_point_ with
  | some mp => env.right_world2pixel mp.pos_ pose   -- use projected points as initial guess
  | none => kp.position_.pt                          -- use same pixel in left image

/-- The body of `Frontend::FindFeaturesInRight` up to its closing brace: the
state and the local `num_good_pts` (which is only logged). -/
def FindFeaturesInRight_body (env : Collaborators) (s : Frontend) :
    Option (Frontend × Int) := do
  let cur ← s.current_frame_
  let F := s.frames cur
  let kps_left := F.features_left_.map fun kp => kp.position_.pt
  let kps_right := F.features_left_.map (rightSeed env s F.pose_)
  let lk := env.calcOpticalFlowPyrLK F.left_img_ F.right_img_ kps_left kps_right
  lk.1.enum.foldlM (FindFeaturesInRight_step cur lk.2) (s, 0)

/-- The function `Frontend::FindFeaturesInRight`: its body, then the closing
brace of an `int` function without any `return`.  When the call returns at all,
the caller has the state the body left and an `int` that is not `num_good_pts`,
since nothing is returned. -/
def FindFeaturesInRight (env : Collaborators) (s : Frontend) : Option (Frontend × Int) := do
  let r ← FindFeaturesInRight_body env s
  let v ← env.FindFeaturesInRight_value
  pure (r.1, v)

/-- One round of the loop `for (i = 0; i < features_left_.size(); ++i)` of
`BuildInitMap`. -/
def BuildInitMap_step (env : Collaborators) (cur : FramePtr) (st : Frontend) (i : Nat) :
    Option Frontend := do
  let right ← (st.frames cur).features_right_[i]?
  match right with
  | none => pure st                                  -- continue
  | some fr =>
    let fl ← (st.frames cur).features_left_[i]?
    -- create map point from triangulation
    let points := [env.left_pixel2camera fl.position_.pt,
                   env.right_pixel2camera fr.position_.pt]
    let pworld := env.triangulation [env.left_pose, env.right_pose] points ⟨0, 0, 0⟩
    let (st1, p) := st.CreateNewMappoint
    let new_map_point : Option MapPoint := (st1.mappoints p).map fun mp =>
      { mp with pos_ := pworld, observed_times_ := 2,
                _observations := mp._observations ++ [⟨cur, Side.left, i⟩, ⟨cur, Side.right, i⟩] }
    let st2 := { st1 with mappoints := Function.update st1.mappoints p new_map_point }
    pure (st2.InsertMapPoint p)

/-- The function `Frontend::BuildInitMap`. -/
def BuildInitMap (env : Collaborators) (s : Frontend) : Option (Frontend × Bool) := do
  let cur ← s.current_frame_
  let s1 ← (List.range (s.frames cur).features_left_.length).foldlM
    (BuildInitMap_step env cur) s
  pure (s1.InsertKeyFrame cur, true)

/-- The function `Frontend::StereoInit`. -/
def StereoInit (env : Collaborators) (s : Frontend) : Option (Frontend × Bool) := do
  let (s1, _num_features_left) ← DetectFeatures env s
  let (s2, num_coor_features) ← FindFeaturesInRight env s1
  if num_coor_features < s2.num_features_init_ then
    pure (s2, false)
  else
    let (s3, build_map_success) ← BuildInitMap env s2
    if build_map_success then
      pure ({ s3 with status_ := FrontendStatus.TRACKING_GOOD }, true)
    else
      pure (s3, false)

/-! ## Pose estimation -/

/-- The constant `chi2_th = 5.991`, as the reduced fraction `5991 / 1000`. -/
def chi2_th : ℚ := ⟨5991, 1000, by decide, by decide⟩

/-- The loop of `EstimateCurrentPose` that builds the locals `features` and
`edges` (kept as one list of pairs: `features[k]` is the slot of the left
feature, `edges[k]` its edge); the arguments are the `(i, features_left_[i])`
still to visit and the local `index`. -/
def buildEdges (s : Frontend) (K : Mat33) :
    List (Nat × Feature) → Int → List (Nat × EdgeProjectionPoseOnly)
  | [], _ => []
  | (i, f) :: rest, index =>
    match s.lock f.map_point_ with
    | some mp =>
      (i, { id := index, pos3d := mp.pos_, K := K, measurement := f.position_.pt,
            robustKernel := true, level := 0, chi2 := 0 })
        :: buildEdges s K rest (index + 1)
    | none => buildEdges s K rest index

/-- Write into the edges of level 0, from position `k` on, the chi-square the
solve leaves cached in them. -/
def storeActiveErrors (chi : Nat → ℚ) :
    Nat → List (Nat × EdgeProjectionPoseOnly) → List (Nat × EdgeProjectionPoseOnly)
  | _, [] => []
  | k, (i, e) :: rest =>
    (i, if e.level = 0 then { e with chi2 := chi k } else e) :: storeActiveErrors chi (k + 1) rest

/-- The state of the loop over the edges: the left features of the current
frame, the edges already visited, and `cnt_outlier`. -/
structure OutlierCount where
  features_left_ : List Feature
  edges : List (Nat × EdgeProjectionPoseOnly)
  cnt_outlier : Int

/-- The statement `if (iteration == 2) e->setRobustKernel(nullptr);`. -/
def stripKernel (iteration : Nat) (e : EdgeProjectionPoseOnly) : EdgeProjectionPoseOnly :=
  if iteration = 2 then { e with robustKernel := false } else e

/-- One round of the loop `for (i = 0; i < edges.size(); ++i)`; `fe` is
`(features[i], edges[i])` and `est` the estimate of the pose vertex. -/
def countOutlierStep (env : Collaborators) (est : SE3) (iteration : Nat)
    (acc : OutlierCount) (fe : Nat × EdgeProjectionPoseOnly) : Option OutlierCount := do
  let f ← acc.features_left_[fe.1]?
  let e : EdgeProjectionPoseOnly :=
    if f.is_outlier_ then { fe.2 with chi2 := env.computeError est fe.2.toEdgeTerm } else fe.2
  if chi2_th < e.chi2 then
    pure
      { features_left_ := acc.features_left_.set fe.1 { f with is_outlier_ := true }
        edges := acc.edges ++ [(fe.1, stripKernel iteration { e with level := 1 })]
        cnt_outlier := acc.cnt_outlier + 1 }
  else
    pure
      { features_left_ := acc.features_left_.set fe.1 { f with is_outlier_ := false }
        edges := acc.edges ++ [(fe.1, stripKernel iteration { e with level := 0 })]
        cnt_outlier := acc.cnt_outlier }

/-- One call of the solver, as the front end issues it. -/
structure SolveCall where
  estimate : SE3
  edges : List EdgeTerm
  iterations : Nat

/-- The state of the loop `for (iteration = 0; iteration < 4; ++iteration)`:
the left features of the current frame, the local `edges` (paired with
`features`), the estimate held by the pose vertex, `cnt_outlier`, and the calls
of the solver so far. -/
structure Refinement where
  features_left_ : List Feature
  edges : List (Nat × EdgeProjectionPoseOnly)
  estimate : SE3
  cnt_outlier : Int
  solves : List SolveCall

/-- One round of the loop `for (iteration = 0; iteration < 4; ++iteration)`;
`pose` is `current_frame_->Pose()`. -/
def refineStep (env : Collaborators) (pose : SE3) (r : Refinement) (iteration : Nat) :
    Option Refinement := do
  -- vertex_pose->setEstimate(current_frame_->Pose()); initializeOptimization(); optimize(10)
  let call : SolveCall := ⟨pose, r.edges.map fun fe => fe.2.toEdgeTerm, 10⟩
  let sol := env.optimize call.estimate call.edges call.iterations
  let edges := storeActiveErrors sol.2 0 r.edges
  -- cnt_outlier = 0; count the outliers
  let c ← edges.foldlM (countOutlierStep env sol.1 iteration) ⟨r.features_left_, [], 0⟩
  pure { features_left_ := c.features_left_, edges := c.edges, estimate := sol.1,
         cnt_outlier := c.cnt_outlier, solves := r.solves ++ [call] }

/-- What `EstimateCurrentPose` leaves: the state, the returned `int`, and for
reference the locals `features`/`edges` at exit and the calls of the solver. -/
structure PoseEstimate where
  state : Frontend
  value : Int
  edges : List (Nat × EdgeProjectionPoseOnly)
  solves : List SolveCall

/-- The function `Frontend::EstimateCurrentPose`. -/
def EstimateCurrentPose (env : Collaborators) (s : Frontend) : Option PoseEstimate := do
  let cur ← s.current_frame_
  let F := s.frames cur
  let edges := buildEdges s env.left_K F.features_left_.enum 1
  -- estimate the Pose the determine the outliers
  let r ← (List.range 4).foldlM (refineStep env F.pose_)
    { features_left_ := F.features_left_, edges := edges, estimate := F.pose_,
      cnt_outlier := 0, solves := [] }
  pure
    { state := s.setFrame cur { F with features_left_ := r.features_left_, pose_ := r.estimate }
      value := (r.edges.length : Int) - r.cnt_outlier
      edges := r.edges
      solves := r.solves }

/-! ## `Track`, `AddFrame` -/

/-- The function `Frontend::Track`. -/
def Track (env : Collaborators) (s : Frontend) : Option (Frontend × Bool) := do
  let (s1, num_track_last) ← TrackLastFrame env s
  let est ← EstimateCurrentPose env s1
  let s2 := est.state
  let s3 : Frontend :=
    if num_track_last > s2.num_features_tracking_ then
      { s2 with status_ := FrontendStatus.TRACKING_GOOD }       -- tracking good
    else if num_track_last > s2.num_features_tracking_bad_ then
      { s2 with status_ := FrontendStatus.TRACKING_BAD }        -- tracking bad
    else
      { s2 with status_ := FrontendStatus.LOST }                -- lost
  let (s4, _) ← InsertKeyframe env s3
  pure (s4, true)

/-- The function `Frontend::AddFrame`. -/
def AddFrame (env : Collaborators) (s : Frontend) (frame : FramePtr) :
    Option (Frontend × Bool) := do
  let s0 := { s with current_frame_ := some frame }
  let s1 ← match s0.status_ with
    | FrontendStatus.INITING => (StereoInit env s0).map Prod.fst
    | FrontendStatus.TRACKING_GOOD => (Track env s0).map Prod.fst
    | FrontendStatus.TRACKING_BAD => (Track env s0).map Prod.fst
    | FrontendStatus.LOST => (Reset s0).map Prod.fst
  pure ({ s1 with last_frame_ := s1.current_frame_ }, true)

/-! ## Concrete collaborators and states used to run the embedding -/

/-- A tracker that reports success for every seed point, at the seed position. -/
def lkAll (_ _ : Mat) (prev _ : List Point2f) : List Bool × List Point2f :=
  (prev.map fun _ => true, prev)

/-- A tracker that reports failure for every seed point. -/
def lkNone (_ _ : Mat) (prev _ : List Point2f) : List Bool × List Point2f :=
  (prev.map fun _ => false, prev)

/-- Collaborators given by a detector output, a tracker, the chi-square the
solver caches in every active edge, and the three undetermined outcomes. -/
def sampleEnv (kps : List KeyPoint)
    (lk : Mat → Mat → List Point2f → List Point2f → List Bool × List Point2f)
    (chi : Nat → ℚ) (vTrack vFind : Option Int) (vKey : Option Bool) : Collaborators :=
  { detect := fun _ => kps
    calcOpticalFlowPyrLK := lk
    right_world2pixel := fun _ _ => ⟨0, 0⟩
    left_pixel2camera := fun p => ⟨p.x, p.y, 1⟩
    right_pixel2camera := fun p => ⟨p.x, p.y, 1⟩
    left_pose := ⟨[]⟩
    right_pose := ⟨[]⟩
    left_K := ⟨[]⟩
    triangulation := fun _ _ p => p
    optimize := fun est _ _ => (est, chi)
    computeError := fun _ t => chi (t.id - 1).toNat
    TrackLastFrame_value := vTrack
    FindFeaturesInRight_value := vFind
    InsertKeyframe_value := vKey }

/-- A frame with the given left features and no right feature. -/
def sampleFrame (fs : List Feature) : Frame :=
  { pose_ := ⟨[]⟩, left_img_ := ⟨[]⟩, right_img_ := ⟨[]⟩, features_left_ := fs,
    features_right_ := [] }

/-- A left feature of frame 0 at pixel `(n, n)`. -/
def sampleFeature (n : Nat) (mp : Option MapPointPtr) : Feature :=
  { frame_ := 0, position_ := ⟨⟨n, n⟩, 7⟩, map_point_ := mp, is_outlier_ := false }

/-- A front end whose previous frame is frame 0, holding `fs`, and whose other
frames are empty; map point 0 is alive, the map is empty. -/
def sampleState (st : FrontendStatus) (fs : List Feature) (init good bad : Int) (key : Nat) :
    Frontend :=
  { status_ := st, current_frame_ := some 0, last_frame_ := some 0
    num_features_init_ := init, num_features_tracking_ := good
    num_features_tracking_bad_ := bad, num_features_needed_for_keyframe_ := key
    frames := fun p => if p = 0 then sampleFrame fs else sampleFrame []
    mappoints := fun p => if p = 0 then some ⟨0, ⟨0, 0, 1⟩, 2, []⟩ else none
    factory_id := 1
    map_ := ⟨[], []⟩ }

/-- Collaborators whose tracker succeeds everywhere, whose solver leaves the
chi-square 0 in every edge, and where the call of `TrackLastFrame` returns with
the leftover int `v`. -/
def leftoverEnv (v : Int) : Collaborators :=
  sampleEnv [] lkAll (fun _ => 0) (some v) (some 0) (some true)

/-- The collaborators `leftoverEnv` with the leftover int -10208. -/
def trackEnv : Collaborators :=
  leftoverEnv (-10208)

/-- Collaborators that detect one left feature and track every point, and
where no call that reaches the closing brace of a value-returning function
returns. -/
def abortEnv : Collaborators :=
  sampleEnv [⟨⟨4, 5⟩, 31⟩] lkAll (fun _ => 0) none none none

/-- A front end in status TRACKING_BAD with thresholds 2 (good) and 1 (bad):
the previous frame 0 has three left features, the first with a live map point;
the current frame 1 is empty. -/
def trackState : Frontend :=
  { sampleState FrontendStatus.TRACKING_BAD
      [sampleFeature 1 (some 0), sampleFeature 2 none, sampleFeature 3 none] 50 2 1 0 with
    current_frame_ := some 1 }

/-- The front end `trackState` with a live map point on all three features of
the previous frame. -/
def mappedState : Frontend :=
  { sampleState FrontendStatus.TRACKING_BAD
      [sampleFeature 1 (some 0), sampleFeature 2 (some 0), sampleFeature 3 (some 0)] 50 2 1 0 with
    current_frame_ := some 1 }

/-- A front end in status LOST. -/
def lostState : Frontend :=
  sampleState FrontendStatus.LOST [sampleFeature 1 none] 50 10 5 80

/-- A front end in status INITING before its first frame, with
`num_features_init_ = 1`. -/
def initState : Frontend :=
  { sampleState FrontendStatus.INITING [] 1 10 5 80 with
    current_frame_ := some 0, last_frame_ := none }

/-- Collaborators that detect one left feature and find no right
correspondence, where a caller of `FindFeaturesInRight` receives 1. -/
def noMatchEnv : Collaborators :=
  sampleEnv [⟨⟨4, 5⟩, 31⟩] lkNone (fun _ => 0) (some 0) (some 1) (some true)

/-- Collaborators that detect one left feature and find its right
correspondence, where a caller of `FindFeaturesInRight` receives 0. -/
def oneMatchEnv : Collaborators :=
  sampleEnv [⟨⟨4, 5⟩, 31⟩] lkAll (fun _ => 0) (some 0) (some 0) (some true)

/-- A tracker that reports success for the first seed point only. -/
def lkFirst (_ _ : Mat) (prev _ : List Point2f) : List Bool × List Point2f :=
  (prev.enum.map fun x => decide (x.1 = 0), prev)

/-- Collaborators whose tracker follows the first point only. -/
def firstEnv : Collaborators :=
  sampleEnv [] lkFirst (fun _ => 0) (some 1) (some 0) (some true)

/-- Collaborators whose solver leaves the chi-square 7 in the first edge and
`chi2_th` itself in the others. -/
def solveEnv : Collaborators :=
  sampleEnv [] lkAll (fun k => if k = 0 then 7 else chi2_th) (some 0) (some 0) (some true)

/-- A front end whose current frame 0 has three left features: two with a live
map point, one with none. -/
def poseState : Frontend :=
  sampleState FrontendStatus.TRACKING_GOOD
    [sampleFeature 1 (some 0), sampleFeature 2 none, sampleFeature 3 (some 0)] 50 10 5 80

/-! ## Notions used in the statements -/

/-- The members of the front end other than the status, the heaps and the map
are the same in `s` and `t`. -/
def SameMembers (s t : Frontend) : Prop :=
  t.current_frame_ = s.current_frame_ ∧ t.last_frame_ = s.last_frame_ ∧
  t.num_features_init_ = s.num_features_init_ ∧
  t.num_features_tracking_ = s.num_features_tracking_ ∧
  t.num_features_tracking_bad_ = s.num_features_tracking_bad_ ∧
  t.num_features_needed_for_keyframe_ = s.num_features_needed_for_keyframe_

/-- The contract of the correspondence tracker: `status` and the new positions
have one entry per seed point. -/
def TrackerContract (env : Collaborators) : Prop :=
  ∀ a b prev next, (env.calcOpticalFlowPyrLK a b prev next).1.length = prev.length ∧
    (env.calcOpticalFlowPyrLK a b prev next).2.length = prev.length

/-- Push the features `fs`, in order, onto the left features of frame `p`. -/
def pushLeftAll (s : Frontend) (p : FramePtr) (fs : List Feature) : Frontend :=
  fs.foldl (fun st f => st.pushLeft p f) s

/-- Push the entries `fs`, in order, onto the right features of frame `p`. -/
def pushRightAll (s : Frontend) (p : FramePtr) (fs : List (Option Feature)) : Frontend :=
  fs.foldl (fun st f => st.pushRight p f) s

/-- The features the frame tracker is to create on frame `cur`: one per entry
the tracker reports successful, at the reported position, with the map point
reference of the source feature at the same index. -/
def trackedFeatures (cur : FramePtr) (status : List Bool) (pts : List Point2f)
    (src : List Feature) : List Feature :=
  (status.zip (pts.zip src)).filterMap fun x =>
    if x.1 then some { Feature.new cur ⟨x.2.1, 7⟩ with map_point_ := x.2.2.map_point_ }
    else none

/-- The outlier flag of the left feature in slot `i` (`false` for no slot). -/
def flagOf (fl : List Feature) (i : Nat) : Bool :=
  match fl[i]? with
  | some f => f.is_outlier_
  | none => false

/-- What one round of the loop over the edges makes of an edge whose feature
has outlier flag `flagged`. -/
def classify (env : Collaborators) (est : SE3) (iteration : Nat) (flagged : Bool)
    (e : EdgeProjectionPoseOnly) : EdgeProjectionPoseOnly :=
  if chi2_th < (if flagged then env.computeError est e.toEdgeTerm else e.chi2) then
    stripKernel iteration
      { (if flagged then { e with chi2 := env.computeError est e.toEdgeTerm } else e) with
        level := 1 }
  else
    stripKernel iteration
      { (if flagged then { e with chi2 := env.computeError est e.toEdgeTerm } else e) with
        level := 0 }

/-- One round of the loop over the edges, on the pair `(features[i], edges[i])`,
with the flags read from `fl`. -/
def visit (env : Collaborators) (est : SE3) (iteration : Nat) (fl : List Feature)
    (fe : Nat × EdgeProjectionPoseOnly) : Nat × EdgeProjectionPoseOnly :=
  (fe.1, classify env est iteration (flagOf fl fe.1) fe.2)

/-- The flag of every feature that has an edge, and the level of the edge, say
whether the chi-square cached in the edge exceeds the threshold. -/
def Coherent (fl : List Feature) (ps : List (Nat × EdgeProjectionPoseOnly)) : Prop :=
  ∀ fe ∈ ps, flagOf fl fe.1 = decide (chi2_th < fe.2.chi2) ∧
    fe.2.level = if chi2_th < fe.2.chi2 then 1 else 0

/-- The pairs name distinct slots of the feature list. -/
def ValidSlots (fl : List Feature) (ps : List (Nat × EdgeProjectionPoseOnly)) : Prop :=
  (∀ fe ∈ ps, fe.1 < fl.length) ∧ (ps.map Prod.fst).Nodup

/-- The members of a feature other than its outlier flag. -/
def Feature.core (f : Feature) : FramePtr × KeyPoint × Option MapPointPtr :=
  (f.frame_, f.position_, f.map_point_)

/-- The members of an edge that no statement of the loop assigns. -/
def fixedPart (t : EdgeTerm) : Int × Vec3 × Mat33 × Point2f :=
  (t.id, t.pos3d, t.K, t.measurement)

/-- The chi-square statistic of the edge at position `k` in the pass that
issues the solve `c`: for an edge of level 0 the value the solve leaves cached
in it, for an edge the solve leaves out the error recomputed under the estimate
the solve produces. -/
def SolveCall.chi2 (env : Collaborators) (c : SolveCall) (k : Nat) : Option ℚ :=
  (c.edges[k]?).map fun t =>
    if t.level = 0 then (env.optimize c.estimate c.edges c.iterations).2 k
    else env.computeError (env.optimize c.estimate c.edges c.iterations).1 t

/-- The entries `FindFeaturesInRight` is to push onto the right features of
frame `cur`: per entry of `status`, a feature at the reported position, or null. -/
def rightFeatures (cur : FramePtr) (status : List Bool) (pts : List Point2f) :
    List (Option Feature) :=
  (status.zip pts).map fun x => if x.1 then some (Feature.new cur ⟨x.2, 7⟩) else none

/-- The status `Track` assigns when it receives `v` from `TrackLastFrame`. -/
def statusFor (s : Frontend) (v : Int) : FrontendStatus :=
  if v > s.num_features_tracking_ then FrontendStatus.TRACKING_GOOD
  else if v > s.num_features_tracking_bad_ then FrontendStatus.TRACKING_BAD
  else FrontendStatus.LOST

/-- The MapPoint `BuildInitMap` makes, at address `p`, of the left feature `fl`
in slot `i` of frame `cur` and its right feature `fr`. -/
def newMapPoint (env : Collaborators) (cur : FramePtr) (p : MapPointPtr) (i : Nat)
    (fl fr : Feature) : MapPoint :=
  { id_ := p
    pos_ := env.triangulation [env.left_pose, env.right_pose]
      [env.left_pixel2camera fl.position_.pt, env.right_pixel2camera fr.position_.pt] ⟨0, 0, 0⟩
    observed_times_ := 2
    _observations := [⟨cur, Side.left, i⟩, ⟨cur, Side.right, i⟩] }

/-- The slots among `l` whose right feature is present (not null). -/
def matchedSlots (Rf : List (Option Feature)) (l : List Nat) : List Nat :=
  l.filter fun i => (Rf[i]?).join.isSome

end Frontend

end myslam

/-! # Theorems -/

namespace myslam

open Frontend

/-- The constant `chi2_th` is the number 5.991. -/
theorem chi2_th_eq : Frontend.chi2_th = 5991 / 1000 := by
  rw [Frontend.chi2_th, Rat.mk'_eq_divInt, Rat.divInt_eq_div]
  norm_num

/-! ## Heap and loop lemmas -/

theorem setFrame_setFrame (s : Frontend) (p : FramePtr) (F G : Frame) :
    (s.setFrame p F).setFrame p G = s.setFrame p G := by
  simp [setFrame]

theorem setFrame_self (s : Frontend) (p : FramePtr) : s.setFrame p (s.frames p) = s := by
  cases s; simp [setFrame]

theorem frames_setFrame_same (s : Frontend) (p : FramePtr) (F : Frame) :
    (s.setFrame p F).frames p = F := by
  simp [setFrame]

theorem frames_setFrame_ne (s : Frontend) {p q : FramePtr} (F : Frame) (h : q ≠ p) :
    (s.setFrame p F).frames q = s.frames q := by
  simp [setFrame, Function.update_noteq h]

theorem pushLeftAll_eq (cur : FramePtr) : ∀ (fs : List Feature) (s : Frontend),
    pushLeftAll s cur fs =
      s.setFrame cur { s.frames cur with
        features_left_ := (s.frames cur).features_left_ ++ fs } := by
  intro fs
  induction fs with
  | nil =>
    intro s
    have h := (setFrame_self s cur).symm
    simpa [pushLeftAll] using h
  | cons f fs ih =>
    intro s
    have h := ih (s.pushLeft cur f)
    simp only [pushLeftAll, List.foldl_cons] at h ⊢
    rw [h]
    simp [pushLeft, setFrame_setFrame, frames_setFrame_same]

theorem pushRightAll_eq (cur : FramePtr) : ∀ (fs : List (Option Feature)) (s : Frontend),
    pushRightAll s cur fs =
      s.setFrame cur { s.frames cur with
        features_right_ := (s.frames cur).features_right_ ++ fs } := by
  intro fs
  induction fs with
  | nil =>
    intro s
    have h := (setFrame_self s cur).symm
    simpa [pushRightAll] using h
  | cons f fs ih =>
    intro s
    have h := ih (s.pushRight cur f)
    simp only [pushRightAll, List.foldl_cons] at h ⊢
    rw [h]
    simp [pushRight, setFrame_setFrame, frames_setFrame_same]

theorem sameMembers_refl (s : Frontend) : SameMembers s s :=
  ⟨rfl, rfl, rfl, rfl, rfl, rfl⟩

theorem sameMembers_trans {s t u : Frontend} (h₁ : SameMembers s t) (h₂ : SameMembers t u) :
    SameMembers s u := by
  obtain ⟨a1, a2, a3, a4, a5, a6⟩ := h₁
  obtain ⟨b1, b2, b3, b4, b5, b6⟩ := h₂
  exact ⟨b1.trans a1, b2.trans a2, b3.trans a3, b4.trans a4, b5.trans a5, b6.trans a6⟩

theorem sameMembers_setFrame (s : Frontend) (p : FramePtr) (F : Frame) :
    SameMembers s (s.setFrame p F) :=
  ⟨rfl, rfl, rfl, rfl, rfl, rfl⟩

/-- The loop of `TrackLastFrame`, started at index `n` with `l` the rest of
`status`: it ends, having pushed the tracked features and counted them. -/
theorem TrackLastFrame_loop (last cur : FramePtr) (pts : List Point2f) (src : List Feature) :
    ∀ (l : List Bool) (n : Nat) (acc : Frontend × Int),
      n + l.length ≤ pts.length → n + l.length ≤ src.length →
      (∃ ext, (acc.1.frames last).features_left_ = src ++ ext) →
      (l.enumFrom n).foldlM (TrackLastFrame_step last cur pts) acc =
        some (pushLeftAll acc.1 cur (trackedFeatures cur l (pts.drop n) (src.drop n)),
              acc.2 + (trackedFeatures cur l (pts.drop n) (src.drop n)).length) := by
  intro l
  induction l with
  | nil =>
    intro n acc _ _ _
    simp [trackedFeatures, pushLeftAll]
  | cons b l ih =>
    intro n acc hp hs hext
    obtain ⟨ext, hext⟩ := hext
    simp only [List.length_cons] at hp hs
    have hnp : n < pts.length := by omega
    have hns : n < src.length := by omega
    rw [List.enumFrom_cons, List.foldlM_cons, List.drop_eq_getElem_cons hnp,
      List.drop_eq_getElem_cons hns]
    cases b with
    | false =>
      have hstep : TrackLastFrame_step last cur pts acc (n, false) = some acc := by
        simp [TrackLastFrame_step]
      rw [hstep]
      have h := ih (n + 1) acc (by omega) (by omega) ⟨ext, hext⟩
      simp only [Option.bind_eq_bind, Option.some_bind]
      rw [h]
      have hcons : trackedFeatures cur (false :: l) (pts[n] :: List.drop (n + 1) pts)
          (src[n] :: List.drop (n + 1) src) =
            trackedFeatures cur l (List.drop (n + 1) pts) (List.drop (n + 1) src) := rfl
      rw [hcons]
    | true =>
      have hsrc : (acc.1.frames last).features_left_[n]? = some src[n] := by
        rw [hext, List.getElem?_append_left hns, List.getElem?_eq_getElem hns]
      obtain ⟨f, hf⟩ : ∃ f : Feature,
          f = { Feature.new cur ⟨pts[n], 7⟩ with map_point_ := src[n].map_point_ } := ⟨_, rfl⟩
      have hstep : TrackLastFrame_step last cur pts acc (n, true) =
          some (acc.1.pushLeft cur f, acc.2 + 1) := by
        simp [TrackLastFrame_step, List.getElem?_eq_getElem hnp, hsrc, hf]
      rw [hstep]
      have hext' : ∃ ext', ((acc.1.pushLeft cur f).frames last).features_left_ =
          src ++ ext' := by
        by_cases hlc : last = cur
        · subst hlc
          refine ⟨ext ++ [f], ?_⟩
          simp only [pushLeft, frames_setFrame_same, hext, List.append_assoc]
        · refine ⟨ext, ?_⟩
          simp only [pushLeft, frames_setFrame_ne _ _ hlc, hext]
      have h := ih (n + 1) (acc.1.pushLeft cur f, acc.2 + 1) (by omega) (by omega) hext'
      simp only [Option.bind_eq_bind, Option.some_bind]
      rw [h]
      have hcons : trackedFeatures cur (true :: l) (pts[n] :: List.drop (n + 1) pts)
          (src[n] :: List.drop (n + 1) src) =
            f :: trackedFeatures cur l (List.drop (n + 1) pts) (List.drop (n + 1) src) := by
        rw [hf]; rfl
      rw [hcons]
      simp only [pushLeftAll, List.foldl_cons, List.length_cons, Nat.cast_add, Nat.cast_one]
      congr 2
      ring

theorem trackedFeatures_length (cur : FramePtr) : ∀ (status : List Bool) (pts : List Point2f)
    (src : List Feature), status.length ≤ pts.length → status.length ≤ src.length →
    (trackedFeatures cur status pts src).length = status.count true := by
  intro status
  induction status with
  | nil => intro pts src _ _; simp [trackedFeatures]
  | cons b l ih =>
    intro pts src hp hs
    cases pts with
    | nil => simp at hp
    | cons p pts =>
      cases src with
      | nil => simp at hs
      | cons f src =>
        have h := ih pts src (by simpa using hp) (by simpa using hs)
        cases b with
        | false =>
          have hc : trackedFeatures cur (false :: l) (p :: pts) (f :: src) =
              trackedFeatures cur l pts src := rfl
          rw [hc, h]; simp
        | true =>
          have hc : trackedFeatures cur (true :: l) (p :: pts) (f :: src) =
              { Feature.new cur ⟨p, 7⟩ with map_point_ := f.map_point_ } ::
                trackedFeatures cur l pts src := rfl
          rw [hc, List.length_cons, h]; simp

theorem trackedFeatures_map (cur : FramePtr) (status : List Bool) (pts : List Point2f)
    (src : List Feature) :
    (trackedFeatures cur status pts src).map (fun f => (f.position_, f.map_point_)) =
      ((status.zip (pts.zip src)).filter fun x => x.1).map
        fun x => (⟨x.2.1, 7⟩, x.2.2.map_point_) := by
  unfold trackedFeatures
  induction status.zip (pts.zip src) with
  | nil => rfl
  | cons x z ih =>
    rcases x with ⟨b, p, f⟩
    cases b with
    | false => simpa using ih
    | true => simpa [Feature.new] using ih

/-- What the body of `TrackLastFrame` leaves when the tracker returns `status`
and `pts` with one entry per left feature of the previous frame. -/
theorem TrackLastFrame_body_eq (env : Collaborators) (s : Frontend) (last cur : FramePtr)
    (hlast : s.last_frame_ = some last) (hcur : s.current_frame_ = some cur)
    (status : List Bool) (pts : List Point2f)
    (hlk : env.calcOpticalFlowPyrLK (s.frames last).left_img_ (s.frames cur).left_img_
      ((s.frames last).features_left_.map fun kp => kp.position_.pt) [] = (status, pts))
    (hst : status.length = (s.frames last).features_left_.length)
    (hpts : pts.length = (s.frames last).features_left_.length) :
    TrackLastFrame_body env s =
      some (pushLeftAll s cur (trackedFeatures cur status pts (s.frames last).features_left_),
        ((trackedFeatures cur status pts (s.frames last).features_left_).length : Int)) := by
  have h := TrackLastFrame_loop last cur pts (s.frames last).features_left_ status 0 (s, 0)
    (by omega) (by omega) ⟨[], by simp⟩
  simp only [List.drop_zero, zero_add] at h
  simp only [TrackLastFrame_body, hlast, hcur, Option.bind_eq_bind, Option.some_bind, hlk,
    List.enum]
  exact h

/-! ## The loop over the edges -/

theorem stripKernel_chi2 (it : Nat) (e : EdgeProjectionPoseOnly) :
    (stripKernel it e).chi2 = e.chi2 := by
  unfold stripKernel; split <;> rfl

theorem stripKernel_level (it : Nat) (e : EdgeProjectionPoseOnly) :
    (stripKernel it e).level = e.level := by
  unfold stripKernel; split <;> rfl

theorem classify_chi2 (env : Collaborators) (est : SE3) (it : Nat) (b : Bool)
    (e : EdgeProjectionPoseOnly) :
    (classify env est it b e).chi2 =
      if b then env.computeError est e.toEdgeTerm else e.chi2 := by
  unfold classify
  cases b
  · simp only [Bool.false_eq_true, if_false]; split <;> simp [stripKernel_chi2]
  · simp only [if_true]; split <;> simp [stripKernel_chi2]

theorem classify_level (env : Collaborators) (est : SE3) (it : Nat) (b : Bool)
    (e : EdgeProjectionPoseOnly) :
    (classify env est it b e).level =
      if chi2_th < (classify env est it b e).chi2 then 1 else 0 := by
  rw [classify_chi2]
  unfold classify
  cases b
  · simp only [Bool.false_eq_true, if_false]; split <;> simp [stripKernel_level]
  · simp only [if_true]; split <;> simp [stripKernel_level]

theorem classify_fixedPart (env : Collaborators) (est : SE3) (it : Nat) (b : Bool)
    (e : EdgeProjectionPoseOnly) :
    fixedPart (classify env est it b e).toEdgeTerm = fixedPart e.toEdgeTerm := by
  unfold classify stripKernel
  cases b <;> simp only [Bool.false_eq_true, if_false, if_true] <;> split <;> split <;> rfl

theorem classify_kernel (env : Collaborators) (est : SE3) (it : Nat) (b : Bool)
    (e : EdgeProjectionPoseOnly) :
    (classify env est it b e).robustKernel = if it = 2 then false else e.robustKernel := by
  unfold classify stripKernel
  cases b <;> simp only [Bool.false_eq_true, if_false, if_true] <;> split <;> split <;> rfl

theorem countOutlierStep_eq (env : Collaborators) (est : SE3) (it : Nat) (acc : OutlierCount)
    (fe : Nat × EdgeProjectionPoseOnly) (f : Feature)
    (hf : acc.features_left_[fe.1]? = some f) :
    countOutlierStep env est it acc fe = some
      { features_left_ := acc.features_left_.set fe.1
          { f with is_outlier_ := decide (chi2_th < (classify env est it f.is_outlier_ fe.2).chi2) }
        edges := acc.edges ++ [(fe.1, classify env est it f.is_outlier_ fe.2)]
        cnt_outlier := acc.cnt_outlier +
          if chi2_th < (classify env est it f.is_outlier_ fe.2).chi2 then 1 else 0 } := by
  rw [classify_chi2]
  unfold countOutlierStep classify
  simp only [hf, Option.bind_eq_bind, Option.some_bind]
  cases hb : f.is_outlier_ <;> simp only [if_true, if_false, Bool.false_eq_true] <;>
    split <;> rename_i h <;>
    simp only [h, if_true, if_false, decide_True, decide_False, add_zero, pure, hb]

theorem flagOf_set_ne (fl : List Feature) {i j : Nat} (f : Feature) (h : i ≠ j) :
    flagOf (fl.set i f) j = flagOf fl j := by
  simp [flagOf, List.getElem?_set_ne h]

theorem flagOf_of_getElem? {fl : List Feature} {i : Nat} {f : Feature}
    (h : fl[i]? = some f) : flagOf fl i = f.is_outlier_ := by
  simp [flagOf, h]

/-- The loop over the edges ends when the pairs name distinct slots of the
feature list; it visits every pair with the flags read from the list it starts
with, writes the flag of each visited slot and leaves the other slots alone. -/
theorem countOutliers_loop (env : Collaborators) (est : SE3) (it : Nat) :
    ∀ (ps : List (Nat × EdgeProjectionPoseOnly)) (acc : OutlierCount),
      (∀ fe ∈ ps, fe.1 < acc.features_left_.length) → (ps.map Prod.fst).Nodup →
      ∃ r, ps.foldlM (countOutlierStep env est it) acc = some r ∧
        r.edges = acc.edges ++ ps.map (visit env est it acc.features_left_) ∧
        r.cnt_outlier = acc.cnt_outlier +
          ((ps.map (visit env est it acc.features_left_)).countP
            fun fe => decide (chi2_th < fe.2.chi2) : Nat) ∧
        r.features_left_.length = acc.features_left_.length ∧
        (∀ j, j ∉ ps.map Prod.fst → r.features_left_[j]? = acc.features_left_[j]?) ∧
        (∀ fe ∈ ps, r.features_left_[fe.1]? = (acc.features_left_[fe.1]?).map fun f =>
          { f with is_outlier_ :=
              decide (chi2_th < (visit env est it acc.features_left_ fe).2.chi2) }) := by
  intro ps
  induction ps with
  | nil =>
    intro acc _ _
    exact ⟨acc, rfl, by simp, by simp, rfl, fun _ _ => rfl, by simp⟩
  | cons fe0 ps ih =>
    intro acc hv hn
    have h0 : fe0.1 < acc.features_left_.length := hv fe0 (List.mem_cons_self _ _)
    have hf0 : acc.features_left_[fe0.1]? = some acc.features_left_[fe0.1] :=
      List.getElem?_eq_getElem h0
    obtain ⟨f0, hf0'⟩ : ∃ f0, f0 = acc.features_left_[fe0.1] := ⟨_, rfl⟩
    rw [← hf0'] at hf0
    have hcl : classify env est it f0.is_outlier_ fe0.2 =
        (visit env est it acc.features_left_ fe0).2 := by
      simp [visit, flagOf_of_getElem? hf0]
    rw [List.map_cons, List.nodup_cons] at hn
    obtain ⟨hnot, hn'⟩ := hn
    have hne : ∀ fe ∈ ps, fe0.1 ≠ fe.1 := by
      intro fe hfe heq
      exact hnot (heq ▸ List.mem_map_of_mem Prod.fst hfe)
    rw [List.foldlM_cons, countOutlierStep_eq env est it acc fe0 f0 hf0, hcl]
    simp only [Option.bind_eq_bind, Option.some_bind]
    obtain ⟨r, hr, he, hc, hl, hout, hin⟩ := ih
      { features_left_ := acc.features_left_.set fe0.1
          { f0 with is_outlier_ :=
              decide (chi2_th < (visit env est it acc.features_left_ fe0).2.chi2) }
        edges := acc.edges ++ [(fe0.1, (visit env est it acc.features_left_ fe0).2)]
        cnt_outlier := acc.cnt_outlier +
          if chi2_th < (visit env est it acc.features_left_ fe0).2.chi2 then 1 else 0 }
      (by
        intro fe hfe
        simp only [List.length_set]
        exact hv fe (List.mem_cons_of_mem _ hfe))
      hn'
    simp only at he hc hl hout hin
    have hvis : ps.map (visit env est it (acc.features_left_.set fe0.1
          { f0 with is_outlier_ :=
              decide (chi2_th < (visit env est it acc.features_left_ fe0).2.chi2) })) =
        ps.map (visit env est it acc.features_left_) := by
      apply List.map_congr_left
      intro fe hfe
      simp only [visit, flagOf_set_ne _ _ (hne fe hfe)]
    rw [hvis] at he hc
    refine ⟨r, hr, ?_, ?_, ?_, ?_, ?_⟩
    · rw [he]
      simp [visit]
    · rw [hc, List.map_cons, List.countP_cons]
      by_cases hlt : chi2_th < (visit env est it acc.features_left_ fe0).2.chi2
      · simp only [hlt, if_true, decide_True, Nat.cast_add, Nat.cast_one]
        ring
      · simp only [hlt, if_false, decide_False, add_zero, Bool.false_eq_true]
    · rw [hl, List.length_set]
    · intro j hj
      rw [List.map_cons, List.mem_cons, not_or] at hj
      rw [hout j hj.2, List.getElem?_set_ne (Ne.symm hj.1)]
    · intro fe hfe
      rcases List.mem_cons.1 hfe with rfl | hfe'
      · rw [hout fe.1 hnot, List.getElem?_set_self h0, hf0]
        rfl
      · rw [hin fe hfe', List.getElem?_set_ne (hne fe hfe')]
        have hv1 : visit env est it (acc.features_left_.set fe0.1
            { f0 with is_outlier_ :=
                decide (chi2_th < (visit env est it acc.features_left_ fe0).2.chi2) }) fe =
            visit env est it acc.features_left_ fe := by
          simp only [visit, flagOf_set_ne _ _ (hne fe hfe')]
        rw [hv1]

/-! ## The loops of the stereo initialiser -/

theorem DetectFeatures_eq (env : Collaborators) (s : Frontend) (cur : FramePtr)
    (hcur : s.current_frame_ = some cur) :
    DetectFeatures env s =
      some (pushLeftAll s cur ((env.detect (s.frames cur).left_img_).map (Feature.new cur)),
        ((env.detect (s.frames cur).left_img_).length : Int)) := by
  simp only [DetectFeatures, hcur, Option.bind_eq_bind, Option.some_bind, pushLeftAll,
    List.foldl_map]
  rfl

/-- The loop of `FindFeaturesInRight`, started at index `n` with `l` the rest
of `status`: it ends, having pushed one entry per element of `l`. -/
theorem FindFeaturesInRight_loop (cur : FramePtr) (pts : List Point2f) :
    ∀ (l : List Bool) (n : Nat) (acc : Frontend × Int), n + l.length ≤ pts.length →
      (l.enumFrom n).foldlM (FindFeaturesInRight_step cur pts) acc =
        some (pushRightAll acc.1 cur (rightFeatures cur l (pts.drop n)),
              acc.2 + (l.count true : Nat)) := by
  intro l
  induction l with
  | nil =>
    intro n acc _
    simp [rightFeatures, pushRightAll]
  | cons b l ih =>
    intro n acc hp
    simp only [List.length_cons] at hp
    have hnp : n < pts.length := by omega
    rw [List.enumFrom_cons, List.foldlM_cons, List.drop_eq_getElem_cons hnp]
    cases b with
    | false =>
      have hstep : FindFeaturesInRight_step cur pts acc (n, false) =
          some (acc.1.pushRight cur none, acc.2) := by
        simp [FindFeaturesInRight_step]
      rw [hstep]
      have h := ih (n + 1) (acc.1.pushRight cur none, acc.2) (by omega)
      simp only [Option.bind_eq_bind, Option.some_bind]
      rw [h]
      have hcons : rightFeatures cur (false :: l) (pts[n] :: List.drop (n + 1) pts) =
          none :: rightFeatures cur l (List.drop (n + 1) pts) := rfl
      rw [hcons]
      simp [pushRightAll]
    | true =>
      have hstep : FindFeaturesInRight_step cur pts acc (n, true) =
          some (acc.1.pushRight cur (some (Feature.new cur ⟨pts[n], 7⟩)), acc.2 + 1) := by
        simp [FindFeaturesInRight_step, List.getElem?_eq_getElem hnp]
      rw [hstep]
      have h := ih (n + 1) (acc.1.pushRight cur (some (Feature.new cur ⟨pts[n], 7⟩)), acc.2 + 1)
        (by omega)
      simp only [Option.bind_eq_bind, Option.some_bind]
      rw [h]
      have hcons : rightFeatures cur (true :: l) (pts[n] :: List.drop (n + 1) pts) =
          some (Feature.new cur ⟨pts[n], 7⟩) :: rightFeatures cur l (List.drop (n + 1) pts) :=
        rfl
      rw [hcons]
      simp only [pushRightAll, List.foldl_cons, List.count_cons_self, Nat.cast_add,
        Nat.cast_one]
      congr 2
      ring

/-- What the body of `FindFeaturesInRight` leaves when the tracker returns
`status` and `pts` with at least as many positions as `status` has entries. -/
theorem FindFeaturesInRight_body_eq (env : Collaborators) (s : Frontend) (cur : FramePtr)
    (hcur : s.current_frame_ = some cur) (status : List Bool) (pts : List Point2f)
    (hlk : env.calcOpticalFlowPyrLK (s.frames cur).left_img_ (s.frames cur).right_img_
      ((s.frames cur).features_left_.map fun kp => kp.position_.pt)
      ((s.frames cur).features_left_.map (rightSeed env s (s.frames cur).pose_)) =
        (status, pts))
    (hpts : status.length ≤ pts.length) :
    FindFeaturesInRight_body env s =
      some (pushRightAll s cur (rightFeatures cur status pts), ((status.count true : Nat) : Int)) := by
  have h := FindFeaturesInRight_loop cur pts status 0 (s, 0) (by omega)
  simp only [List.drop_zero, zero_add] at h
  simp only [FindFeaturesInRight_body, hcur, Option.bind_eq_bind, Option.some_bind, hlk,
    List.enum]
  exact h

theorem rightFeatures_length (cur : FramePtr) (status : List Bool) (pts : List Point2f)
    (h : status.length ≤ pts.length) : (rightFeatures cur status pts).length = status.length := by
  simp [rightFeatures, h]

/-- The loop of `BuildInitMap` over the indices `l` ends when every index is
a slot of both feature vectors; it leaves the frames and the members alone. -/
theorem BuildInitMap_loop (env : Collaborators) (cur : FramePtr) :
    ∀ (l : List Nat) (st : Frontend),
      (∀ i ∈ l, i < (st.frames cur).features_left_.length ∧
        i < (st.frames cur).features_right_.length) →
      ∃ st', l.foldlM (BuildInitMap_step env cur) st = some st' ∧
        st'.frames = st.frames ∧ SameMembers st st' ∧ st'.status_ = st.status_ ∧
        st'.map_.keyframes_ = st.map_.keyframes_ := by
  intro l
  induction l with
  | nil => intro st _; exact ⟨st, rfl, rfl, sameMembers_refl st, rfl, rfl⟩
  | cons i l ih =>
    intro st hl
    obtain ⟨hil, hir⟩ := hl i (List.mem_cons_self _ _)
    have hstep : ∃ st1, BuildInitMap_step env cur st i = some st1 ∧ st1.frames = st.frames ∧
        SameMembers st st1 ∧ st1.status_ = st.status_ ∧
        st1.map_.keyframes_ = st.map_.keyframes_ := by
      unfold BuildInitMap_step
      rw [List.getElem?_eq_getElem hir, List.getElem?_eq_getElem hil]
      simp only [Option.bind_eq_bind, Option.some_bind]
      cases (st.frames cur).features_right_[i] with
      | none => exact ⟨st, rfl, rfl, sameMembers_refl st, rfl, rfl⟩
      | some fr => exact ⟨_, rfl, rfl, ⟨rfl, rfl, rfl, rfl, rfl, rfl⟩, rfl, rfl⟩
    obtain ⟨st1, h1, hf1, hm1, hs1, hk1⟩ := hstep
    obtain ⟨st', h', hf', hm', hs', hk'⟩ := ih st1 (by
      intro j hj
      rw [hf1]
      exact hl j (List.mem_cons_of_mem _ hj))
    refine ⟨st', ?_, hf'.trans hf1, sameMembers_trans hm1 hm', hs'.trans hs1, hk'.trans hk1⟩
    rw [List.foldlM_cons, h1]
    simpa using h'

/-- The loop of `BuildInitMap` over the slots `l`: it creates one MapPoint per
slot with a right feature, at consecutive addresses from `factory_id` on, and
inserts them in that order. -/
theorem BuildInitMap_loop_points (env : Collaborators) (cur : FramePtr) (Lf : List Feature)
    (Rf : List (Option Feature)) :
    ∀ (l : List Nat) (st : Frontend),
      (st.frames cur).features_left_ = Lf → (st.frames cur).features_right_ = Rf →
      (∀ i ∈ l, i < Lf.length ∧ i < Rf.length) →
      ∃ st', l.foldlM (BuildInitMap_step env cur) st = some st' ∧
        st'.frames = st.frames ∧
        st'.factory_id = st.factory_id + (matchedSlots Rf l).length ∧
        st'.map_.landmarks_ =
          st.map_.landmarks_ ++ List.range' st.factory_id (matchedSlots Rf l).length ∧
        (∀ p, p < st.factory_id → st'.mappoints p = st.mappoints p) ∧
        (∀ k i, (matchedSlots Rf l)[k]? = some i → ∃ fl fr, Lf[i]? = some fl ∧
          Rf[i]? = some (some fr) ∧
          st'.mappoints (st.factory_id + k) =
            some (newMapPoint env cur (st.factory_id + k) i fl fr)) := by
  intro l
  induction l with
  | nil =>
    intro st _ _ _
    exact ⟨st, rfl, rfl, by simp [matchedSlots], by simp [matchedSlots], fun _ _ => rfl,
      by simp [matchedSlots]⟩
  | cons i l ih =>
    intro st hL hR hl
    obtain ⟨hil, hir⟩ := hl i (List.mem_cons_self _ _)
    have hl' : ∀ j ∈ l, j < Lf.length ∧ j < Rf.length :=
      fun j hj => hl j (List.mem_cons_of_mem _ hj)
    obtain ⟨r, hr⟩ : ∃ r, Rf[i]? = some r := ⟨_, List.getElem?_eq_getElem hir⟩
    obtain ⟨fl, hfl⟩ : ∃ fl, Lf[i]? = some fl := ⟨_, List.getElem?_eq_getElem hil⟩
    cases r with
    | none =>
      have hstep : BuildInitMap_step env cur st i = some st := by
        simp [BuildInitMap_step, hR, hr]
      have hm : matchedSlots Rf (i :: l) = matchedSlots Rf l := by
        simp [matchedSlots, List.filter_cons, hr]
      obtain ⟨st', h', hf', hid', hlm', hold', hnew'⟩ := ih st hL hR hl'
      refine ⟨st', ?_, hf', by rw [hm]; exact hid', by rw [hm]; exact hlm', hold', ?_⟩
      · rw [List.foldlM_cons, hstep]
        simpa using h'
      · rw [hm]; exact hnew'
    | some fr =>
      obtain ⟨st2, hst2⟩ : ∃ st2 : Frontend, st2 =
          { st with
            mappoints := Function.update st.mappoints st.factory_id
              (some (newMapPoint env cur st.factory_id i fl fr))
            factory_id := st.factory_id + 1
            map_ := { st.map_ with landmarks_ := st.map_.landmarks_ ++ [st.factory_id] } } :=
        ⟨_, rfl⟩
      have hstep : BuildInitMap_step env cur st i = some st2 := by
        simp [BuildInitMap_step, hR, hL, hr, hfl, CreateNewMappoint, InsertMapPoint, hst2,
          newMapPoint]
      have hm : matchedSlots Rf (i :: l) = i :: matchedSlots Rf l := by
        simp [matchedSlots, List.filter_cons, hr]
      have hfr2 : st2.frames = st.frames := by rw [hst2]
      have hid2 : st2.factory_id = st.factory_id + 1 := by rw [hst2]
      obtain ⟨st', h', hf', hid', hlm', hold', hnew'⟩ := ih st2 (by rw [hfr2]; exact hL)
        (by rw [hfr2]; exact hR) hl'
      refine ⟨st', ?_, hf'.trans hfr2, ?_, ?_, ?_, ?_⟩
      · rw [List.foldlM_cons, hstep]
        simpa using h'
      · rw [hid', hid2, hm, List.length_cons]; omega
      · rw [hlm', hid2, hm, List.length_cons, List.range'_succ]
        simp [hst2]
      · intro p hp
        rw [hold' p (by rw [hid2]; omega), hst2]
        simp [Function.update_noteq (Nat.ne_of_lt hp)]
      · intro k j hk
        rw [hm] at hk
        cases k with
        | zero =>
          simp only [List.getElem?_cons_zero, Option.some.injEq] at hk
          subst hk
          refine ⟨fl, fr, hfl, hr, ?_⟩
          rw [Nat.add_zero, hold' st.factory_id (by rw [hid2]; omega), hst2]
          simp
        | succ k =>
          simp only [List.getElem?_cons_succ] at hk
          obtain ⟨fl', fr', h1, h2, h3⟩ := hnew' k j hk
          refine ⟨fl', fr', h1, h2, ?_⟩
          have : st.factory_id + (k + 1) = st2.factory_id + k := by rw [hid2]; omega
          rw [this]
          exact h3

/-! ## One pass of the refinement loop -/

theorem storeActiveErrors_map_fst (chi : Nat → ℚ) :
    ∀ (ps : List (Nat × EdgeProjectionPoseOnly)) (n : Nat),
      (storeActiveErrors chi n ps).map Prod.fst = ps.map Prod.fst := by
  intro ps
  induction ps with
  | nil => intro n; rfl
  | cons fe ps ih =>
    intro n
    rcases fe with ⟨i, e⟩
    simp [storeActiveErrors, ih]

theorem storeActiveErrors_map_term (chi : Nat → ℚ) :
    ∀ (ps : List (Nat × EdgeProjectionPoseOnly)) (n : Nat),
      (storeActiveErrors chi n ps).map (fun fe => fe.2.toEdgeTerm) =
        ps.map fun fe => fe.2.toEdgeTerm := by
  intro ps
  induction ps with
  | nil => intro n; rfl
  | cons fe ps ih =>
    intro n
    rcases fe with ⟨i, e⟩
    simp only [storeActiveErrors, List.map_cons, ih]
    split <;> rfl

theorem storeActiveErrors_getElem? (chi : Nat → ℚ) :
    ∀ (ps : List (Nat × EdgeProjectionPoseOnly)) (n k : Nat),
      (storeActiveErrors chi n ps)[k]? = (ps[k]?).map fun fe =>
        (fe.1, if fe.2.level = 0 then { fe.2 with chi2 := chi (n + k) } else fe.2) := by
  intro ps
  induction ps with
  | nil => intro n k; rfl
  | cons fe ps ih =>
    intro n k
    rcases fe with ⟨i, e⟩
    cases k with
    | zero => simp [storeActiveErrors]
    | succ k =>
      simp only [storeActiveErrors, List.getElem?_cons_succ, ih]
      have : n + 1 + k = n + (k + 1) := by omega
      rw [this]

theorem visit_fst (env : Collaborators) (est : SE3) (it : Nat) (fl : List Feature)
    (fe : Nat × EdgeProjectionPoseOnly) : (visit env est it fl fe).1 = fe.1 := rfl

theorem map_visit_fst (env : Collaborators) (est : SE3) (it : Nat) (fl : List Feature)
    (ps : List (Nat × EdgeProjectionPoseOnly)) :
    (ps.map (visit env est it fl)).map Prod.fst = ps.map Prod.fst := by
  rw [List.map_map]
  rfl

/-- One pass of the refinement loop, started with edges that name distinct
slots of the feature list. -/
theorem refineStep_spec (env : Collaborators) (pose : SE3) (R : Refinement) (it : Nat)
    (hv : ValidSlots R.features_left_ R.edges) :
    ∃ R', refineStep env pose R it = some R' ∧
      R'.edges = (storeActiveErrors
          (env.optimize pose (R.edges.map fun fe => fe.2.toEdgeTerm) 10).2 0 R.edges).map
        (visit env (env.optimize pose (R.edges.map fun fe => fe.2.toEdgeTerm) 10).1 it
          R.features_left_) ∧
      R'.estimate = (env.optimize pose (R.edges.map fun fe => fe.2.toEdgeTerm) 10).1 ∧
      R'.solves = R.solves ++ [⟨pose, R.edges.map fun fe => fe.2.toEdgeTerm, 10⟩] ∧
      R'.cnt_outlier = (R'.edges.countP fun fe => decide (chi2_th < fe.2.chi2) : Nat) ∧
      ValidSlots R'.features_left_ R'.edges ∧
      Coherent R'.features_left_ R'.edges ∧
      R'.features_left_.map Feature.core = R.features_left_.map Feature.core ∧
      R'.edges.map Prod.fst = R.edges.map Prod.fst ∧
      R'.edges.map (fun fe => fixedPart fe.2.toEdgeTerm) =
        R.edges.map (fun fe => fixedPart fe.2.toEdgeTerm) ∧
      R'.edges.map (fun fe => fe.2.robustKernel) =
        R.edges.map (fun fe => if it = 2 then false else fe.2.robustKernel) := by
  obtain ⟨sol, hsol⟩ : ∃ sol, sol = env.optimize pose (R.edges.map fun fe => fe.2.toEdgeTerm) 10 :=
    ⟨_, rfl⟩
  obtain ⟨ps, hps⟩ : ∃ ps, ps = storeActiveErrors sol.2 0 R.edges := ⟨_, rfl⟩
  have hfst : ps.map Prod.fst = R.edges.map Prod.fst := by
    rw [hps, storeActiveErrors_map_fst]
  have hvalid : ∀ fe ∈ ps, fe.1 < R.features_left_.length := by
    intro fe hfe
    have : fe.1 ∈ R.edges.map Prod.fst := hfst ▸ List.mem_map_of_mem Prod.fst hfe
    obtain ⟨fe', hfe', heq⟩ := List.mem_map.1 this
    exact heq ▸ hv.1 fe' hfe'
  obtain ⟨r, hr, he, hc, hl, hout, hin⟩ := countOutliers_loop env sol.1 it ps
    ⟨R.features_left_, [], 0⟩ hvalid (hfst ▸ hv.2)
  simp only [List.nil_append, zero_add] at he hc hl hout hin
  refine ⟨{ features_left_ := r.features_left_, edges := r.edges, estimate := sol.1,
            cnt_outlier := r.cnt_outlier,
            solves := R.solves ++ [⟨pose, R.edges.map fun fe => fe.2.toEdgeTerm, 10⟩] },
    ?_, ?_, ?_, ?_, ?_, ?_, ?_, ?_, ?_, ?_, ?_⟩
  · simp only [refineStep, ← hsol, ← hps, hr, Option.bind_eq_bind, Option.some_bind]
    rfl
  · simp only [← hsol, ← hps, he]
  · simp only [← hsol]
  · rfl
  · simp only [hc, he]
  · constructor
    · intro fe hfe
      simp only [he] at hfe
      obtain ⟨fe', hfe', heq⟩ := List.mem_map.1 hfe
      simp only [hl, ← heq, visit_fst]
      exact hvalid fe' hfe'
    · simp only [he, map_visit_fst, hfst]
      exact hv.2
  · intro fe hfe
    simp only [he] at hfe
    obtain ⟨fe', hfe', heq⟩ := List.mem_map.1 hfe
    constructor
    · have h1 := hin fe' hfe'
      obtain ⟨f, h2⟩ : ∃ f, R.features_left_[fe'.1]? = some f :=
        ⟨_, List.getElem?_eq_getElem (hvalid fe' hfe')⟩
      rw [h2] at h1
      simp only [Option.map_some'] at h1
      rw [← heq, visit_fst, flagOf_of_getElem? h1]
    · rw [← heq]
      exact classify_level _ _ _ _ _
  · apply List.ext_getElem?
    intro j
    simp only [List.getElem?_map]
    by_cases hj : j ∈ ps.map Prod.fst
    · obtain ⟨fe', hfe', heq⟩ := List.mem_map.1 hj
      have h1 := hin fe' hfe'
      rw [heq] at h1
      rw [h1]
      cases R.features_left_[j]? <;> rfl
    · rw [hout j hj]
  · simp only [he, map_visit_fst, hfst]
  · have h := congrArg (List.map fixedPart) (storeActiveErrors_map_term sol.2 R.edges 0)
    simp only [List.map_map] at h
    simp only [he, List.map_map, ← hps] at h ⊢
    refine Eq.trans ?_ h
    apply List.map_congr_left
    intro fe _
    exact classify_fixedPart _ _ _ _ _
  · have h := congrArg (List.map fun t : EdgeTerm => if it = 2 then false else t.robustKernel)
      (storeActiveErrors_map_term sol.2 R.edges 0)
    simp only [List.map_map] at h
    simp only [he, List.map_map, ← hps] at h ⊢
    refine Eq.trans ?_ h
    apply List.map_congr_left
    intro fe _
    exact classify_kernel _ _ _ _ _

/-! ## The refinement loop -/

/-- The first `n` passes of the refinement loop. -/
theorem refinePasses_spec (env : Collaborators) (pose : SE3) :
    ∀ (n : Nat) (R0 : Refinement), ValidSlots R0.features_left_ R0.edges →
      ∃ Rn L, (List.range n).foldlM (refineStep env pose) R0 = some Rn ∧
        ValidSlots Rn.features_left_ Rn.edges ∧
        (0 < n → Coherent Rn.features_left_ Rn.edges) ∧
        Rn.features_left_.map Feature.core = R0.features_left_.map Feature.core ∧
        Rn.edges.map Prod.fst = R0.edges.map Prod.fst ∧
        Rn.edges.map (fun fe => fixedPart fe.2.toEdgeTerm) =
          R0.edges.map (fun fe => fixedPart fe.2.toEdgeTerm) ∧
        (3 ≤ n → ∀ fe ∈ Rn.edges, fe.2.robustKernel = false) ∧
        Rn.solves = R0.solves ++ L ∧ L.length = n ∧
        (∀ c ∈ L, c.estimate = pose ∧ c.iterations = 10) ∧
        (0 < n → L.head? = some ⟨pose, R0.edges.map fun fe => fe.2.toEdgeTerm, 10⟩) := by
  intro n
  induction n with
  | zero =>
    intro R0 hv
    exact ⟨R0, [], rfl, hv, by simp, rfl, rfl, rfl, by simp, by simp, rfl, by simp, by simp⟩
  | succ n ih =>
    intro R0 hv
    obtain ⟨Rn, L, hfold, hvn, _, hcore, hfst, hfix, hker, hsol, hlen, hall, hhead⟩ := ih R0 hv
    obtain ⟨R', hstep, _, _, hsol', _, hv', hcoh', hcore', hfst', hfix', hker'⟩ :=
      refineStep_spec env pose Rn n hvn
    refine ⟨R', L ++ [⟨pose, Rn.edges.map fun fe => fe.2.toEdgeTerm, 10⟩], ?_, hv',
      fun _ => hcoh', hcore'.trans hcore, hfst'.trans hfst, hfix'.trans hfix, ?_, ?_, ?_, ?_, ?_⟩
    · rw [List.range_succ, List.foldlM_append, hfold]
      simp only [Option.bind_eq_bind, Option.some_bind, List.foldlM_cons, List.foldlM_nil, hstep]
      rfl
    · intro h3 fe hfe
      have hmem : fe.2.robustKernel ∈ R'.edges.map (fun fe => fe.2.robustKernel) :=
        List.mem_map_of_mem (fun fe => fe.2.robustKernel) hfe
      rw [hker'] at hmem
      obtain ⟨fe0, hfe0, heq⟩ := List.mem_map.1 hmem
      by_cases h2 : n = 2
      · simpa [h2] using heq.symm
      · have h3' : 3 ≤ n := by omega
        simp only [h2, if_false] at heq
        rw [← heq]
        exact hker h3' fe0 hfe0
    · rw [hsol', hsol, List.append_assoc]
    · simp [hlen]
    · intro c hc
      rcases List.mem_append.1 hc with hc | hc
      · exact hall c hc
      · simp only [List.mem_singleton] at hc
        subst hc
        exact ⟨rfl, rfl⟩
    · intro _
      cases n with
      | zero =>
        have hL : L = [] := List.length_eq_zero.1 hlen
        have hR : Rn = R0 := by
          simpa using hfold.symm
        simp [hL, hR]
      | succ m =>
        have h := hhead (Nat.succ_pos m)
        cases L with
        | nil => simp at h
        | cons c L => simpa using h

/-! ## The edges built by `EstimateCurrentPose` -/

theorem buildEdges_map_fst (s : Frontend) (K : Mat33) :
    ∀ (l : List (Nat × Feature)) (index : Int),
      (buildEdges s K l index).map Prod.fst =
        (l.filter fun x => (s.lock x.2.map_point_).isSome).map Prod.fst := by
  intro l
  induction l with
  | nil => intro index; rfl
  | cons x l ih =>
    intro index
    rcases x with ⟨i, f⟩
    cases hl : s.lock f.map_point_ with
    | none => simp [buildEdges, hl, ih, List.filter_cons]
    | some mp => simp [buildEdges, hl, ih, List.filter_cons]

theorem buildEdges_validSlots (s : Frontend) (K : Mat33) (fl : List Feature) (index : Int) :
    ValidSlots fl (buildEdges s K fl.enum index) := by
  have hsub : List.Sublist ((buildEdges s K fl.enum index).map Prod.fst)
      (fl.enum.map Prod.fst) := by
    rw [buildEdges_map_fst]
    exact (List.filter_sublist _).map _
  constructor
  · intro fe hfe
    have h1 : fe.1 ∈ fl.enum.map Prod.fst := hsub.subset (List.mem_map_of_mem Prod.fst hfe)
    rw [List.enum_map_fst] at h1
    exact List.mem_range.1 h1
  · apply hsub.nodup
    rw [List.enum_map_fst]
    exact List.nodup_range _

/-- The chi-square an edge holds after a pass, when flags and levels were
coherent before it. -/
theorem visit_store_chi2 (env : Collaborators) (est : SE3) (it : Nat) (fl : List Feature)
    (ps : List (Nat × EdgeProjectionPoseOnly)) (hcoh : Coherent fl ps)
    (fe : Nat × EdgeProjectionPoseOnly) (hfe : fe ∈ ps) (c : ℚ) :
    (visit env est it fl
        (fe.1, if fe.2.level = 0 then { fe.2 with chi2 := c } else fe.2)).2.chi2 =
      if fe.2.level = 0 then c else env.computeError est fe.2.toEdgeTerm := by
  obtain ⟨hflag, hlevel⟩ := hcoh fe hfe
  simp only [visit, classify_chi2, hflag]
  by_cases h : chi2_th < fe.2.chi2
  · have hl : fe.2.level ≠ 0 := by rw [hlevel]; simp [h]
    simp [h, hl]
  · have hl : fe.2.level = 0 := by rw [hlevel]; simp [h]
    simp [h, hl]

/-- What `EstimateCurrentPose` does, in terms of the state `R3` of its
refinement loop before the last pass and the state `R4` after it. -/
theorem EstimateCurrentPose_spec (env : Collaborators) (s : Frontend) (cur : FramePtr)
    (hcur : s.current_frame_ = some cur) :
    ∃ (R3 R4 : Refinement) (L : List SolveCall),
      EstimateCurrentPose env s = some
        { state := s.setFrame cur { s.frames cur with
            features_left_ := R4.features_left_, pose_ := R4.estimate }
          value := (R4.edges.length : Int) - R4.cnt_outlier
          edges := R4.edges
          solves := R4.solves } ∧
      ValidSlots R3.features_left_ R3.edges ∧
      Coherent R3.features_left_ R3.edges ∧
      R3.edges.map Prod.fst =
        (buildEdges s env.left_K (s.frames cur).features_left_.enum 1).map Prod.fst ∧
      R3.edges.map (fun fe => fixedPart fe.2.toEdgeTerm) =
        (buildEdges s env.left_K (s.frames cur).features_left_.enum 1).map
          (fun fe => fixedPart fe.2.toEdgeTerm) ∧
      (∀ fe ∈ R3.edges, fe.2.robustKernel = false) ∧
      L.length = 3 ∧
      (∀ c ∈ L, c.estimate = (s.frames cur).pose_ ∧ c.iterations = 10) ∧
      L.head? = some ⟨(s.frames cur).pose_,
        (buildEdges s env.left_K (s.frames cur).features_left_.enum 1).map
          fun fe => fe.2.toEdgeTerm, 10⟩ ∧
      R4.edges = (storeActiveErrors
          (env.optimize (s.frames cur).pose_ (R3.edges.map fun fe => fe.2.toEdgeTerm) 10).2 0
            R3.edges).map
        (visit env
          (env.optimize (s.frames cur).pose_ (R3.edges.map fun fe => fe.2.toEdgeTerm) 10).1 3
          R3.features_left_) ∧
      R4.estimate =
        (env.optimize (s.frames cur).pose_ (R3.edges.map fun fe => fe.2.toEdgeTerm) 10).1 ∧
      R4.solves = L ++ [⟨(s.frames cur).pose_, R3.edges.map fun fe => fe.2.toEdgeTerm, 10⟩] ∧
      R4.cnt_outlier = (R4.edges.countP fun fe => decide (chi2_th < fe.2.chi2) : Nat) ∧
      ValidSlots R4.features_left_ R4.edges ∧
      Coherent R4.features_left_ R4.edges ∧
      R4.features_left_.map Feature.core = (s.frames cur).features_left_.map Feature.core ∧
      R4.edges.map Prod.fst = R3.edges.map Prod.fst := by
  obtain ⟨R3, L, hfold, hv3, hcoh3, hcore3, hfst3, hfix3, hker3, hsol3, hlen3, hall3, hhead3⟩ :=
    refinePasses_spec env (s.frames cur).pose_ 3
      { features_left_ := (s.frames cur).features_left_
        edges := buildEdges s env.left_K (s.frames cur).features_left_.enum 1
        estimate := (s.frames cur).pose_, cnt_outlier := 0, solves := [] }
      (buildEdges_validSlots s env.left_K _ 1)
  obtain ⟨R4, hstep, he4, hest4, hsol4, hcnt4, hv4, hcoh4, hcore4, hfst4, _, _⟩ :=
    refineStep_spec env (s.frames cur).pose_ R3 3 hv3
  simp only [List.nil_append] at hsol3
  refine ⟨R3, R4, L, ?_, hv3, hcoh3 (by omega), hfst3, hfix3, hker3 (le_refl 3), hlen3, hall3,
    hhead3 (by omega), he4, hest4, hsol3 ▸ hsol4, hcnt4, hv4, hcoh4, hcore4.trans hcore3, hfst4⟩
  have hfold4 : (List.range 4).foldlM (refineStep env (s.frames cur).pose_)
      { features_left_ := (s.frames cur).features_left_
        edges := buildEdges s env.left_K (s.frames cur).features_left_.enum 1
        estimate := (s.frames cur).pose_, cnt_outlier := 0, solves := [] } = some R4 := by
    rw [List.range_succ, List.foldlM_append, hfold]
    simp only [Option.bind_eq_bind, Option.some_bind, List.foldlM_cons, List.foldlM_nil, hstep]
    rfl
  simp only [EstimateCurrentPose, hcur, Option.bind_eq_bind, Option.some_bind, hfold4]
  rfl

theorem eq_zipWith_levels : ∀ (l2 l1 : List EdgeTerm),
    l2.map fixedPart = l1.map fixedPart → (∀ t ∈ l2, t.robustKernel = false) →
    l2 = List.zipWith (fun t l => { t with level := l, robustKernel := false }) l1
      (l2.map fun t => t.level) := by
  intro l2
  induction l2 with
  | nil => intro l1 _ _; simp
  | cons t2 l2 ih =>
    intro l1 hfix hker
    cases l1 with
    | nil => simp at hfix
    | cons t1 l1 =>
      simp only [List.map_cons, List.cons.injEq] at hfix
      have hk : t2.robustKernel = false := hker t2 (List.mem_cons_self _ _)
      have htail := ih l1 hfix.2 fun t ht => hker t (List.mem_cons_of_mem _ ht)
      simp only [List.map_cons, List.zipWith_cons_cons, List.cons.injEq]
      refine ⟨?_, htail⟩
      have h := hfix.1
      simp only [fixedPart, Prod.mk.injEq] at h
      obtain ⟨h1, h2, h3, h4⟩ := h
      cases t2; cases t1
      simp only at h1 h2 h3 h4 hk
      simp only [h1, h2, h3, h4, hk]

theorem mem_buildEdges_fst (s : Frontend) (K : Mat33) (fl : List Feature) (index : Int)
    (i : Nat) (f : Feature) (hf : fl[i]? = some f) (hres : (s.lock f.map_point_).isSome) :
    i ∈ (buildEdges s K fl.enum index).map Prod.fst := by
  rw [buildEdges_map_fst]
  have hmem : (i, f) ∈ fl.enum := List.mk_mem_enum_iff_getElem?.2 hf
  have hmem' : (i, f) ∈ fl.enum.filter fun x => (s.lock x.2.map_point_).isSome :=
    List.mem_filter.2 ⟨hmem, hres⟩
  exact List.mem_map_of_mem Prod.fst hmem'

theorem filter_flags (fl : List Feature) (q : Feature → Bool) :
    (fl.filter q).map (fun f => f.is_outlier_) =
      ((fl.enum.filter fun x => q x.2).map Prod.fst).map (flagOf fl) := by
  have h1 : fl.filter q = (fl.enum.filter fun x => q x.2).map Prod.snd := by
    conv_lhs => rw [← List.enum_map_snd fl]
    rw [List.filter_map]
    rfl
  rw [h1, List.map_map, List.map_map]
  apply List.map_congr_left
  intro x hx
  have hx' : fl[x.1]? = some x.2 :=
    List.mk_mem_enum_iff_getElem?.1 (List.mem_of_mem_filter hx)
  simp [flagOf_of_getElem? hx']

theorem resolving_slots_of_core (s : Frontend) (fl : List Feature) :
    (fl.enum.filter fun x => (s.lock x.2.map_point_).isSome).map Prod.fst =
      ((fl.map Feature.core).enum.filter fun x => (s.lock x.2.2.2).isSome).map Prod.fst := by
  rw [List.enum, List.enum, List.enumFrom_map, List.filter_map, List.map_map]
  rfl

/-! ## `StereoInit` and `Track` end -/

theorem sameMembers_pushLeftAll (s : Frontend) (p : FramePtr) (fs : List Feature) :
    SameMembers s (pushLeftAll s p fs) := by
  rw [pushLeftAll_eq]; exact sameMembers_setFrame _ _ _

theorem sameMembers_pushRightAll (s : Frontend) (p : FramePtr) (fs : List (Option Feature)) :
    SameMembers s (pushRightAll s p fs) := by
  rw [pushRightAll_eq]; exact sameMembers_setFrame _ _ _

/-- `BuildInitMap` ends when the current frame has a right entry for every
left feature. -/
theorem BuildInitMap_total (env : Collaborators) (s : Frontend) (cur : FramePtr)
    (hcur : s.current_frame_ = some cur)
    (hlen : (s.frames cur).features_left_.length ≤ (s.frames cur).features_right_.length) :
    ∃ s', BuildInitMap env s = some (s', true) ∧ SameMembers s s' ∧ s'.status_ = s.status_ ∧
      s'.map_.keyframes_ = s.map_.keyframes_ ++ [cur] := by
  obtain ⟨s1, h1, _, hm1, hs1, hk1⟩ := BuildInitMap_loop env cur
    (List.range (s.frames cur).features_left_.length) s (by
      intro i hi
      have := List.mem_range.1 hi
      exact ⟨this, by omega⟩)
  refine ⟨s1.InsertKeyFrame cur, ?_, hm1, hs1, ?_⟩
  · simp only [BuildInitMap, hcur, Option.bind_eq_bind, Option.some_bind, h1]
    rfl
  · simp only [InsertKeyFrame, hk1]

/-- `StereoInit` ends under the tracker contract, and leaves the members other
than the status alone. -/
theorem StereoInit_total (env : Collaborators) (s : Frontend) (cur : FramePtr)
    (hcur : s.current_frame_ = some cur) (hctr : TrackerContract env) (v : Int)
    (hv : env.FindFeaturesInRight_value = some v) :
    ∃ s' b, StereoInit env s = some (s', b) ∧ SameMembers s s' := by
  obtain ⟨s1, hs1⟩ : ∃ s1, s1 =
      pushLeftAll s cur ((env.detect (s.frames cur).left_img_).map (Feature.new cur)) :=
    ⟨_, rfl⟩
  have hm1 : SameMembers s s1 := hs1 ▸ sameMembers_pushLeftAll _ _ _
  have hcur1 : s1.current_frame_ = some cur := hm1.1.trans hcur
  obtain ⟨status, pts, hlk⟩ : ∃ status pts,
      env.calcOpticalFlowPyrLK (s1.frames cur).left_img_ (s1.frames cur).right_img_
        ((s1.frames cur).features_left_.map fun kp => kp.position_.pt)
        ((s1.frames cur).features_left_.map (rightSeed env s1 (s1.frames cur).pose_)) =
          (status, pts) := ⟨_, _, rfl⟩
  have hc := hctr (s1.frames cur).left_img_ (s1.frames cur).right_img_
    ((s1.frames cur).features_left_.map fun kp => kp.position_.pt)
    ((s1.frames cur).features_left_.map (rightSeed env s1 (s1.frames cur).pose_))
  rw [hlk] at hc
  simp only [List.length_map] at hc
  obtain ⟨hst, hpt⟩ := hc
  obtain ⟨s2, hs2⟩ : ∃ s2, s2 = pushRightAll s1 cur (rightFeatures cur status pts) := ⟨_, rfl⟩
  have hm2 : SameMembers s1 s2 := hs2 ▸ sameMembers_pushRightAll _ _ _
  have hfind : FindFeaturesInRight env s1 = some (s2, v) := by
    simp only [FindFeaturesInRight,
      FindFeaturesInRight_body_eq env s1 cur hcur1 status pts hlk (by omega),
      Option.bind_eq_bind, Option.some_bind, hs2, hv]
    rfl
  have hhead : StereoInit env s =
      (if v < s2.num_features_init_ then some (s2, false)
       else (BuildInitMap env s2).bind fun r =>
        if r.2 then some ({ r.1 with status_ := FrontendStatus.TRACKING_GOOD }, true)
        else some (r.1, false)) := by
    simp only [StereoInit, DetectFeatures_eq env s cur hcur, ← hs1, hfind, Option.bind_eq_bind,
      Option.some_bind]
    split <;> rfl
  rw [hhead]
  by_cases hmin : v < s2.num_features_init_
  · rw [if_pos hmin]
    exact ⟨s2, false, rfl, sameMembers_trans hm1 hm2⟩
  · rw [if_neg hmin]
    have hlen : (s2.frames cur).features_left_.length ≤
        (s2.frames cur).features_right_.length := by
      rw [hs2, pushRightAll_eq, frames_setFrame_same]
      simp only [List.length_append, rightFeatures_length cur status pts (by omega)]
      omega
    obtain ⟨s3, h3, hm3, _, _⟩ := BuildInitMap_total env s2 cur (hm2.1.trans hcur1) hlen
    rw [h3]
    exact ⟨{ s3 with status_ := FrontendStatus.TRACKING_GOOD }, true, rfl,
      sameMembers_trans hm1 (sameMembers_trans hm2 hm3)⟩

theorem matchedSlots_length (Rf : List (Option Feature)) :
    (matchedSlots Rf (List.range Rf.length)).length = Rf.countP fun r => r.isSome := by
  induction Rf using List.reverseRecOn with
  | nil => rfl
  | append_singleton Rf a ih =>
    have hpre : matchedSlots (Rf ++ [a]) (List.range Rf.length) =
        matchedSlots Rf (List.range Rf.length) := by
      apply List.filter_congr
      intro i hi
      rw [List.getElem?_append_left (List.mem_range.1 hi)]
    rw [List.length_append, List.length_singleton, List.range_succ]
    unfold matchedSlots at hpre ih ⊢
    rw [List.filter_append, List.length_append, hpre, ih, List.countP_append]
    congr 1
    cases a <;> simp [List.filter_cons]

theorem rightFeatures_countP (cur : FramePtr) (status : List Bool) (pts : List Point2f)
    (h : status.length ≤ pts.length) :
    (rightFeatures cur status pts).countP (fun r => r.isSome) = status.count true := by
  have h1 : (rightFeatures cur status pts).countP (fun r => r.isSome) =
      ((status.zip pts).map Prod.fst).countP fun b => b := by
    rw [rightFeatures, List.countP_map, List.countP_map]
    apply List.countP_congr
    intro x _
    rcases x with ⟨b, q⟩
    cases b <;> simp
  rw [h1, List.map_fst_zip _ _ h, List.count_eq_countP]
  apply List.countP_congr
  intro b _
  cases b <;> simp

/-- When the call of `FindFeaturesInRight` returns and the int `v` that
`StereoInit` receives from it reaches `num_features_init_`, and the frame comes with empty feature lists:
`StereoInit` returns `true` with status TRACKING_GOOD, and inserts the frame
as keyframe and exactly `N` MapPoints, where `N` is the number of successes
`FindFeaturesInRight` counts; the `k`-th of them belongs to the `k`-th left
slot `i` that has a right feature, with `observed_times_ = 2` and the
observations left `i`, right `i`. -/
theorem StereoInit_builds_map (env : Collaborators) (s : Frontend) (cur : FramePtr)
    (hcur : s.current_frame_ = some cur) (hctr : TrackerContract env)
    (hL : (s.frames cur).features_left_ = []) (hR : (s.frames cur).features_right_ = [])
    (v : Int) (hv : env.FindFeaturesInRight_value = some v)
    (hmin : s.num_features_init_ ≤ v) :
    ∃ (s' : Frontend) (N : Nat), StereoInit env s = some (s', true) ∧
      s'.status_ = FrontendStatus.TRACKING_GOOD ∧
      ((DetectFeatures env s).bind fun r => FindFeaturesInRight_body env r.1).map Prod.snd =
        some (N : Int) ∧
      s'.map_.landmarks_ = s.map_.landmarks_ ++ List.range' s.factory_id N ∧
      s'.map_.keyframes_ = s.map_.keyframes_ ++ [cur] ∧
      (matchedSlots (s'.frames cur).features_right_
        (List.range (s'.frames cur).features_left_.length)).length = N ∧
      ∀ k i, (matchedSlots (s'.frames cur).features_right_
          (List.range (s'.frames cur).features_left_.length))[k]? = some i →
        ∃ mp, s'.mappoints (s.factory_id + k) = some mp ∧ mp.observed_times_ = 2 ∧
          mp._observations = [⟨cur, Side.left, i⟩, ⟨cur, Side.right, i⟩] := by
  obtain ⟨s1, hs1⟩ : ∃ s1, s1 =
      pushLeftAll s cur ((env.detect (s.frames cur).left_img_).map (Feature.new cur)) :=
    ⟨_, rfl⟩
  have hm1 : SameMembers s s1 := hs1 ▸ sameMembers_pushLeftAll _ _ _
  have hcur1 : s1.current_frame_ = some cur := hm1.1.trans hcur
  obtain ⟨status, pts, hlk⟩ : ∃ status pts,
      env.calcOpticalFlowPyrLK (s1.frames cur).left_img_ (s1.frames cur).right_img_
        ((s1.frames cur).features_left_.map fun kp => kp.position_.pt)
        ((s1.frames cur).features_left_.map (rightSeed env s1 (s1.frames cur).pose_)) =
          (status, pts) := ⟨_, _, rfl⟩
  have hc := hctr (s1.frames cur).left_img_ (s1.frames cur).right_img_
    ((s1.frames cur).features_left_.map fun kp => kp.position_.pt)
    ((s1.frames cur).features_left_.map (rightSeed env s1 (s1.frames cur).pose_))
  rw [hlk] at hc
  simp only [List.length_map] at hc
  obtain ⟨hst, hpt⟩ := hc
  obtain ⟨s2, hs2⟩ : ∃ s2, s2 = pushRightAll s1 cur (rightFeatures cur status pts) := ⟨_, rfl⟩
  have hm2 : SameMembers s1 s2 := hs2 ▸ sameMembers_pushRightAll _ _ _
  have hbody := FindFeaturesInRight_body_eq env s1 cur hcur1 status pts hlk (by omega)
  have hfind : FindFeaturesInRight env s1 = some (s2, v) := by
    simp only [FindFeaturesInRight, hbody, Option.bind_eq_bind, Option.some_bind, hs2, hv]
    rfl
  have hmin2 : ¬ v < s2.num_features_init_ := by
    rw [hm2.2.2.1, hm1.2.2.1]; omega
  have hhead : StereoInit env s =
      (BuildInitMap env s2).bind fun r =>
        if r.2 then some ({ r.1 with status_ := FrontendStatus.TRACKING_GOOD }, true)
        else some (r.1, false) := by
    simp only [StereoInit, DetectFeatures_eq env s cur hcur, ← hs1, hfind, Option.bind_eq_bind,
      Option.some_bind, if_neg hmin2]
    rfl
  have hL1 : (s1.frames cur).features_left_ =
      (env.detect (s.frames cur).left_img_).map (Feature.new cur) := by
    rw [hs1, pushLeftAll_eq, frames_setFrame_same, hL, List.nil_append]
  have hR1 : (s1.frames cur).features_right_ = [] := by
    rw [hs1, pushLeftAll_eq, frames_setFrame_same, hR]
  have hL2 : (s2.frames cur).features_left_ = (s1.frames cur).features_left_ := by
    rw [hs2, pushRightAll_eq, frames_setFrame_same]
  have hR2 : (s2.frames cur).features_right_ = rightFeatures cur status pts := by
    rw [hs2, pushRightAll_eq, frames_setFrame_same, hR1, List.nil_append]
  have hRlen : (rightFeatures cur status pts).length = (s2.frames cur).features_left_.length := by
    rw [rightFeatures_length cur status pts (by omega), hL2, hst]
  obtain ⟨s3, h3, hf3, hid3, hlm3, _, hnew3⟩ := BuildInitMap_loop_points env cur
    (s2.frames cur).features_left_ (rightFeatures cur status pts)
    (List.range (s2.frames cur).features_left_.length) s2 rfl hR2 (by
      intro i hi
      have := List.mem_range.1 hi
      exact ⟨this, by omega⟩)
  have hbuild : BuildInitMap env s2 = some (s3.InsertKeyFrame cur, true) := by
    simp only [BuildInitMap, hm2.1.trans hcur1, Option.bind_eq_bind, Option.some_bind, h3]
    rfl
  have hN : (matchedSlots (rightFeatures cur status pts)
      (List.range (s2.frames cur).features_left_.length)).length = status.count true := by
    rw [← hRlen, matchedSlots_length, rightFeatures_countP cur status pts (by omega)]
  have hmap2 : s2.map_ = s.map_ := by
    rw [hs2, pushRightAll_eq, hs1, pushLeftAll_eq]; rfl
  have hfid2 : s2.factory_id = s.factory_id := by
    rw [hs2, pushRightAll_eq, hs1, pushLeftAll_eq]; rfl
  have hfr : ({ s3.InsertKeyFrame cur with status_ := FrontendStatus.TRACKING_GOOD } :
      Frontend).frames = s2.frames := hf3
  refine ⟨{ s3.InsertKeyFrame cur with status_ := FrontendStatus.TRACKING_GOOD },
    status.count true, ?_, rfl, ?_, ?_, ?_, ?_, ?_⟩
  · rw [hhead, hbuild]; rfl
  · simp only [DetectFeatures_eq env s cur hcur, ← hs1, Option.bind_eq_bind, Option.some_bind,
      hbody, Option.map_some']
  · show s3.map_.landmarks_ = _
    rw [hlm3, hN, hmap2, hfid2]
  · show s3.map_.keyframes_ ++ [cur] = _
    have hk3 : s3.map_.keyframes_ = s2.map_.keyframes_ := by
      obtain ⟨s3', h3', _, _, _, hk⟩ := BuildInitMap_loop env cur
        (List.range (s2.frames cur).features_left_.length) s2 (by
          intro i hi
          have := List.mem_range.1 hi
          rw [hR2]
          exact ⟨this, by omega⟩)
      rw [h3] at h3'
      simp only [Option.some.injEq] at h3'
      rw [h3']
      exact hk
    rw [hk3, hmap2]
  · rw [hfr, hR2, hN]
  · intro k i hk
    rw [hfr, hR2] at hk
    obtain ⟨fl, fr, _, _, hmp⟩ := hnew3 k i hk
    rw [hfid2] at hmp
    exact ⟨_, hmp, rfl, rfl⟩

/-- `Track` ends under the tracker contract when both frame references are
set, the call of `TrackLastFrame` returns with the int `v`, and
`InsertKeyframe` either returns early or returns from its closing brace; the
status it leaves is decided by `v`. -/
theorem Track_spec (env : Collaborators) (s : Frontend) (last cur : FramePtr)
    (hlast : s.last_frame_ = some last) (hcur : s.current_frame_ = some cur)
    (hctr : TrackerContract env) (v : Int) (hv : env.TrackLastFrame_value = some v)
    (hkey : env.InsertKeyframe_value ≠ none ∨
      s.num_features_needed_for_keyframe_ ≤ (s.frames cur).features_left_.length) :
    ∃ s', Track env s = some (s', true) ∧ SameMembers s s' ∧
      s'.status_ = statusFor s v := by
  obtain ⟨status, pts, hlk⟩ : ∃ status pts,
      env.calcOpticalFlowPyrLK (s.frames last).left_img_ (s.frames cur).left_img_
        ((s.frames last).features_left_.map fun kp => kp.position_.pt) [] = (status, pts) :=
    ⟨_, _, rfl⟩
  have hc := hctr (s.frames last).left_img_ (s.frames cur).left_img_
    ((s.frames last).features_left_.map fun kp => kp.position_.pt) []
  rw [hlk] at hc
  simp only [List.length_map] at hc
  obtain ⟨s1, hs1⟩ : ∃ s1, s1 =
      pushLeftAll s cur (trackedFeatures cur status pts (s.frames last).features_left_) :=
    ⟨_, rfl⟩
  have hm1 : SameMembers s s1 := hs1 ▸ sameMembers_pushLeftAll _ _ _
  have hlen1 : (s.frames cur).features_left_.length ≤ (s1.frames cur).features_left_.length := by
    rw [hs1, pushLeftAll_eq, frames_setFrame_same]
    simp
  have htrack : TrackLastFrame env s = some (s1, v) := by
    simp only [TrackLastFrame,
      TrackLastFrame_body_eq env s last cur hlast hcur status pts hlk hc.1 hc.2,
      Option.bind_eq_bind, Option.some_bind, hs1, hv]
    rfl
  obtain ⟨_, R4, _, hest, _, _, _, _, _, _, _, _, _, _, _, _, _, _, hcore4, _⟩ :=
    EstimateCurrentPose_spec env s1 cur (hm1.1.trans hcur)
  have hlen4 : R4.features_left_.length = (s1.frames cur).features_left_.length := by
    have h := congrArg List.length hcore4
    simpa only [List.length_map] using h
  obtain ⟨s2, hs2⟩ : ∃ s2, s2 = s1.setFrame cur { s1.frames cur with
      features_left_ := R4.features_left_, pose_ := R4.estimate } := ⟨_, rfl⟩
  have hm2 : SameMembers s1 s2 := hs2 ▸ sameMembers_setFrame _ _ _
  have hm : SameMembers s s2 := sameMembers_trans hm1 hm2
  obtain ⟨s3, hs3⟩ : ∃ s3 : Frontend, s3 = { s2 with status_ := statusFor s v } := ⟨_, rfl⟩
  have hm3 : SameMembers s s3 := by
    rw [hs3]; exact hm
  have hfl3 : (s3.frames cur).features_left_ = R4.features_left_ := by
    rw [hs3]
    show (s2.frames cur).features_left_ = _
    rw [hs2, frames_setFrame_same]
  have hkey3 : ∃ b, InsertKeyframe env s3 = some (s3, b) := by
    unfold InsertKeyframe
    rw [hm3.1, hcur]
    simp only [Option.bind_eq_bind, Option.some_bind]
    split
    · exact ⟨false, rfl⟩
    · rename_i hnot
      rcases hkey with hk | hk
      · obtain ⟨b, hb⟩ := Option.ne_none_iff_exists'.1 hk
        exact ⟨b, by rw [hb]; rfl⟩
      · exfalso
        apply hnot
        rw [hfl3, hlen4, hm3.2.2.2.2.2]
        exact hk.trans hlen1
  obtain ⟨b, hb⟩ := hkey3
  refine ⟨s3, ?_, hm3, by rw [hs3]⟩
  have hstat : (if v > s2.num_features_tracking_ then
        { s2 with status_ := FrontendStatus.TRACKING_GOOD }
      else if v > s2.num_features_tracking_bad_ then
        { s2 with status_ := FrontendStatus.TRACKING_BAD }
      else { s2 with status_ := FrontendStatus.LOST }) = s3 := by
    rw [hs3, statusFor, hm.2.2.2.1, hm.2.2.2.2.1]
    split
    · rfl
    · split <;> rfl
  simp only [Track, htrack, hest, Option.bind_eq_bind, Option.some_bind, ← hs2, hstat, hb]
  rfl

/-! ## What the operations leave alone, whenever they end -/

theorem foldlM_rel {α β : Type} (R : β → β → Prop) (hrefl : ∀ b, R b b)
    (htrans : ∀ a b c, R a b → R b c → R a c) (f : β → α → Option β)
    (hstep : ∀ b a b', f b a = some b' → R b b') :
    ∀ (l : List α) (b b' : β), l.foldlM f b = some b' → R b b' := by
  intro l
  induction l with
  | nil =>
    intro b b' h
    simp only [List.foldlM_nil, pure, Option.some.injEq] at h
    exact h ▸ hrefl b
  | cons a l ih =>
    intro b b' h
    rw [List.foldlM_cons] at h
    obtain ⟨b1, h1, h2⟩ := Option.bind_eq_some.1 h
    exact htrans _ _ _ (hstep b a b1 h1) (ih b1 b' h2)

theorem TrackLastFrame_sameMembers (env : Collaborators) (s : Frontend) (r : Frontend × Int)
    (h : TrackLastFrame env s = some r) :
    SameMembers s r.1 ∧ env.TrackLastFrame_value = some r.2 ∧
      ∃ n, TrackLastFrame_body env s = some (r.1, n) := by
  unfold TrackLastFrame at h
  obtain ⟨b, hb, h2⟩ := Option.bind_eq_some.1 h
  obtain ⟨v, hv, h2⟩ := Option.bind_eq_some.1 h2
  simp only [pure, Option.some.injEq] at h2
  subst h2
  refine ⟨?_, hv, b.2, hb⟩
  unfold TrackLastFrame_body at hb
  obtain ⟨last, _, hb⟩ := Option.bind_eq_some.1 hb
  obtain ⟨cur, _, hb⟩ := Option.bind_eq_some.1 hb
  refine foldlM_rel (fun a b : Frontend × Int => SameMembers a.1 b.1) (fun b => sameMembers_refl b.1)
    (fun a b c => sameMembers_trans) _ ?_ _ _ _ hb
  intro acc ist acc' hst
  unfold TrackLastFrame_step at hst
  split at hst
  · obtain ⟨pt, _, hst⟩ := Option.bind_eq_some.1 hst
    obtain ⟨src, _, hst⟩ := Option.bind_eq_some.1 hst
    simp only [pure, Option.some.injEq] at hst
    subst hst
    exact sameMembers_setFrame _ _ _
  · simp only [pure, Option.some.injEq] at hst
    subst hst
    exact sameMembers_refl _

theorem FindFeaturesInRight_sameMembers (env : Collaborators) (s : Frontend)
    (r : Frontend × Int) (h : FindFeaturesInRight env s = some r) :
    SameMembers s r.1 ∧ env.FindFeaturesInRight_value = some r.2 := by
  unfold FindFeaturesInRight at h
  obtain ⟨b, hb, h2⟩ := Option.bind_eq_some.1 h
  obtain ⟨v, hv, h2⟩ := Option.bind_eq_some.1 h2
  simp only [pure, Option.some.injEq] at h2
  subst h2
  refine ⟨?_, hv⟩
  unfold FindFeaturesInRight_body at hb
  obtain ⟨cur, _, hb⟩ := Option.bind_eq_some.1 hb
  refine foldlM_rel (fun a b : Frontend × Int => SameMembers a.1 b.1)
    (fun b => sameMembers_refl b.1) (fun a b c => sameMembers_trans) _ ?_ _ _ _ hb
  intro acc ist acc' hst
  unfold FindFeaturesInRight_step at hst
  split at hst
  · obtain ⟨pt, _, hst⟩ := Option.bind_eq_some.1 hst
    simp only [pure, Option.some.injEq] at hst
    subst hst
    exact sameMembers_setFrame _ _ _
  · simp only [pure, Option.some.injEq] at hst
    subst hst
    exact sameMembers_setFrame _ _ _

theorem BuildInitMap_sameMembers (env : Collaborators) (s : Frontend) (r : Frontend × Bool)
    (h : BuildInitMap env s = some r) : SameMembers s r.1 := by
  unfold BuildInitMap at h
  obtain ⟨cur, _, h⟩ := Option.bind_eq_some.1 h
  obtain ⟨s1, h1, h⟩ := Option.bind_eq_some.1 h
  simp only [pure, Option.some.injEq] at h
  subst h
  have hm : SameMembers s s1 := by
    refine foldlM_rel SameMembers sameMembers_refl (fun a b c => sameMembers_trans) _ ?_ _ _ _ h1
    intro st i st' hst
    unfold BuildInitMap_step at hst
    obtain ⟨right, _, hst⟩ := Option.bind_eq_some.1 hst
    cases right with
    | none =>
      simp only [pure, Option.some.injEq] at hst
      subst hst
      exact sameMembers_refl _
    | some fr =>
      obtain ⟨fl, _, hst⟩ := Option.bind_eq_some.1 hst
      simp only [pure, Option.some.injEq] at hst
      subst hst
      exact ⟨rfl, rfl, rfl, rfl, rfl, rfl⟩
  exact hm

theorem DetectFeatures_sameMembers (env : Collaborators) (s : Frontend) (r : Frontend × Int)
    (h : DetectFeatures env s = some r) : SameMembers s r.1 := by
  cases hc : s.current_frame_ with
  | none => simp [DetectFeatures, hc] at h
  | some cur =>
    rw [DetectFeatures_eq env s cur hc] at h
    simp only [Option.some.injEq] at h
    subst h
    exact sameMembers_pushLeftAll _ _ _

theorem StereoInit_sameMembers (env : Collaborators) (s : Frontend) (r : Frontend × Bool)
    (h : StereoInit env s = some r) : SameMembers s r.1 := by
  unfold StereoInit at h
  obtain ⟨⟨s1, n1⟩, h1, h⟩ := Option.bind_eq_some.1 h
  have hm1 : SameMembers s s1 := DetectFeatures_sameMembers env s _ h1
  obtain ⟨⟨s2, n2⟩, h2, h⟩ := Option.bind_eq_some.1 h
  have hm2 : SameMembers s1 s2 := (FindFeaturesInRight_sameMembers env s1 _ h2).1
  simp only at h
  split at h
  · simp only [pure, Option.some.injEq] at h
    subst h
    exact sameMembers_trans hm1 hm2
  · obtain ⟨⟨s3, b3⟩, h3, h⟩ := Option.bind_eq_some.1 h
    have hm3 : SameMembers s2 s3 := BuildInitMap_sameMembers env s2 _ h3
    simp only at h
    split at h <;> simp only [pure, Option.some.injEq] at h <;> subst h
    · exact sameMembers_trans hm1 (sameMembers_trans hm2 hm3)
    · exact sameMembers_trans hm1 (sameMembers_trans hm2 hm3)

theorem EstimateCurrentPose_sameMembers (env : Collaborators) (s : Frontend) (r : PoseEstimate)
    (h : EstimateCurrentPose env s = some r) : SameMembers s r.state := by
  cases hc : s.current_frame_ with
  | none => simp [EstimateCurrentPose, hc] at h
  | some cur =>
    obtain ⟨_, R4, _, hest, _⟩ := EstimateCurrentPose_spec env s cur hc
    rw [hest] at h
    simp only [Option.some.injEq] at h
    subst h
    exact sameMembers_setFrame _ _ _

/-- Whenever `Track` ends, it returns `true`, the call of `TrackLastFrame` has
returned some int `v`, and the status is the one `v` decides. -/
theorem Track_result (env : Collaborators) (s : Frontend) (r : Frontend × Bool)
    (h : Track env s = some r) :
    r.2 = true ∧ SameMembers s r.1 ∧
      ∃ s1 v, TrackLastFrame env s = some (s1, v) ∧ r.1.status_ = statusFor s v := by
  unfold Track at h
  obtain ⟨⟨s1, v⟩, h1, h⟩ := Option.bind_eq_some.1 h
  obtain ⟨hm1, _, _⟩ := TrackLastFrame_sameMembers env s _ h1
  simp only at hm1 h
  obtain ⟨est, h2, h⟩ := Option.bind_eq_some.1 h
  have hm2 := EstimateCurrentPose_sameMembers env s1 est h2
  have hm := sameMembers_trans hm1 hm2
  obtain ⟨⟨s4, b4⟩, h4, h⟩ := Option.bind_eq_some.1 h
  simp only [pure, Option.some.injEq] at h
  subst h
  obtain ⟨s3, hs3⟩ : ∃ s3 : Frontend, s3 = (if v > est.state.num_features_tracking_ then
        { est.state with status_ := FrontendStatus.TRACKING_GOOD }
      else if v > est.state.num_features_tracking_bad_ then
        { est.state with status_ := FrontendStatus.TRACKING_BAD }
      else { est.state with status_ := FrontendStatus.LOST }) := ⟨_, rfl⟩
  rw [← hs3] at h4
  have hs4 : s4 = s3 := by
    unfold InsertKeyframe at h4
    obtain ⟨cur, _, h4⟩ := Option.bind_eq_some.1 h4
    split at h4
    · simp only [pure, Option.some.injEq, Prod.mk.injEq] at h4
      exact h4.1.symm
    · obtain ⟨b, _, h4⟩ := Option.bind_eq_some.1 h4
      simp only [pure, Option.some.injEq, Prod.mk.injEq] at h4
      exact h4.1.symm
  have hr4 := hs4.trans hs3
  refine ⟨rfl, ?_, s1, v, h1, ?_⟩
  · show SameMembers s s4
    rw [hr4]
    split
    · exact hm
    · split <;> exact hm
  · show s4.status_ = _
    rw [hr4, statusFor, hm.2.2.2.1, hm.2.2.2.2.1]
    split
    · rfl
    · split <;> rfl

theorem AddFrame_result (env : Collaborators) (s : Frontend) (frame : FramePtr)
    (r : Frontend × Bool) (h : AddFrame env s frame = some r) :
    r.2 = true ∧ r.1.last_frame_ = some frame := by
  have key : ∀ (o : Option (Frontend × Bool)),
      (∀ x, o = some x → x.1.current_frame_ = some frame) →
      ((o.map Prod.fst).bind fun y : Frontend =>
        some ({ y with last_frame_ := y.current_frame_ }, true)) = some r →
      r.2 = true ∧ r.1.last_frame_ = some frame := by
    intro o ho hr
    obtain ⟨y, hy, hr⟩ := Option.bind_eq_some.1 hr
    obtain ⟨x, hx, rfl⟩ := Option.map_eq_some'.1 hy
    simp only [Option.some.injEq] at hr
    subst hr
    exact ⟨rfl, ho x hx⟩
  have hcur : ∀ s0 t : Frontend, s0.current_frame_ = some frame → SameMembers s0 t →
      t.current_frame_ = some frame := fun s0 t h0 ht => ht.1.trans h0
  unfold AddFrame at h
  cases hs : s.status_ with
  | INITING =>
    simp only [hs] at h
    refine key _ ?_ h
    intro x hx
    exact hcur _ _ rfl (StereoInit_sameMembers env _ x hx)
  | TRACKING_GOOD =>
    simp only [hs] at h
    refine key _ ?_ h
    intro x hx
    exact hcur _ _ rfl (Track_result env _ x hx).2.1
  | TRACKING_BAD =>
    simp only [hs] at h
    refine key _ ?_ h
    intro x hx
    exact hcur _ _ rfl (Track_result env _ x hx).2.1
  | LOST =>
    simp only [hs] at h
    refine key _ ?_ h
    intro x hx
    simp only [Reset, Option.some.injEq] at hx
    subst hx
    rfl

/-- The tracker of `leftoverEnv v` keeps the tracker contract. -/
theorem leftoverEnv_contract (v : Int) : TrackerContract (leftoverEnv v) := by
  intro a b prev next
  simp [leftoverEnv, sampleEnv, lkAll]

/-- In `leftoverEnv v`, where every call that runs off the end of its function
returns, `Track` ends at `s` when both frame references are set; the status it
leaves is decided by `v`. -/
theorem Track_leftoverEnv (v : Int) (s : Frontend) (last cur : FramePtr)
    (hlast : s.last_frame_ = some last) (hcur : s.current_frame_ = some cur) :
    (Track (leftoverEnv v) s).map (fun r => r.1.status_) = some (statusFor s v) := by
  obtain ⟨s', h, _, hst⟩ := Track_spec (leftoverEnv v) s last cur hlast hcur
    (leftoverEnv_contract v) v rfl (Or.inl (by simp [leftoverEnv, sampleEnv]))
  rw [h, Option.map_some', hst]

/-- The body of `TrackLastFrame` does not read the leftover int. -/
theorem TrackLastFrame_body_leftoverEnv (v : Int) (s : Frontend) :
    TrackLastFrame_body (leftoverEnv v) s = TrackLastFrame_body (leftoverEnv 0) s := rfl

/-- The pose estimator does not read the leftover int. -/
theorem EstimateCurrentPose_leftoverEnv (v : Int) (s : Frontend) :
    EstimateCurrentPose (leftoverEnv v) s = EstimateCurrentPose (leftoverEnv 0) s := rfl

/-- The inlier count `EstimateCurrentPose` returns after `TrackLastFrame` in
`leftoverEnv v` is the one it returns on the state the body of
`TrackLastFrame` leaves. -/
theorem inliers_leftoverEnv (v : Int) (s : Frontend) :
    ((TrackLastFrame (leftoverEnv v) s).bind fun r =>
      (EstimateCurrentPose (leftoverEnv v) r.1).map fun e => e.value) =
    ((TrackLastFrame_body (leftoverEnv 0) s).bind fun r =>
      (EstimateCurrentPose (leftoverEnv 0) r.1).map fun e => e.value) := by
  unfold TrackLastFrame
  rw [TrackLastFrame_body_leftoverEnv v s]
  simp only [EstimateCurrentPose_leftoverEnv v]
  cases TrackLastFrame_body (leftoverEnv 0) s <;> rfl

/-! ## The claims -/

/-- C1, as the code has it. In every state and whatever the status was before,
when `Track` ends it returns `true`, its call of `TrackLastFrame` has returned
some int `v` (the source does not determine which), and the status it leaves
is decided only by `v`, not by what `EstimateCurrentPose` returns: with
thresholds `Tgood > Tbad`, `v > Tgood` gives TRACKING_GOOD, `Tbad < v ≤ Tgood`
gives TRACKING_BAD and `v ≤ Tbad` gives LOST.  And `Track` does end when,
under the tracker contract and with both frame references set, the call of
`TrackLastFrame` returns and `InsertKeyframe` returns (early, or from its
closing brace). -/
theorem C1_status_from_num_track_last (env : Collaborators) (s : Frontend)
    (hT : s.num_features_tracking_bad_ < s.num_features_tracking_) :
    (∀ r, Track env s = some r → r.2 = true ∧
      ∃ s1 v, TrackLastFrame env s = some (s1, v) ∧
        (s.num_features_tracking_ < v → r.1.status_ = FrontendStatus.TRACKING_GOOD) ∧
        (s.num_features_tracking_bad_ < v → v ≤ s.num_features_tracking_ →
          r.1.status_ = FrontendStatus.TRACKING_BAD) ∧
        (v ≤ s.num_features_tracking_bad_ → r.1.status_ = FrontendStatus.LOST)) ∧
    (TrackerContract env → s.last_frame_ ≠ none →
      ∀ cur, s.current_frame_ = some cur →
      env.TrackLastFrame_value ≠ none →
      (env.InsertKeyframe_value ≠ none ∨
        s.num_features_needed_for_keyframe_ ≤ (s.frames cur).features_left_.length) →
      ∃ r, Track env s = some r) := by
  constructor
  · intro r hr
    obtain ⟨hb, _, s1, v, h1, hst⟩ := Track_result env s r hr
    refine ⟨hb, s1, v, h1, ?_, ?_, ?_⟩
    · intro hv
      rw [hst, statusFor, if_pos hv]
    · intro hv1 hv2
      rw [hst, statusFor, if_neg (not_lt.2 hv2), if_pos hv1]
    · intro hv
      rw [hst, statusFor, if_neg (by omega), if_neg (by omega)]
  · intro hctr hlast cur hc hval hkey
    obtain ⟨last, hl⟩ := Option.ne_none_iff_exists'.1 hlast
    obtain ⟨v, hv⟩ := Option.ne_none_iff_exists'.1 hval
    obtain ⟨s', h, _⟩ := Track_spec env s last cur hl hc hctr v hv hkey
    exact ⟨_, h⟩

/-- C1 as amended, at `trackState` in `trackEnv`, where the call of
`TrackLastFrame` returns with a leftover int: `Track` ends and the status is
the one that int decides. -/
theorem C1_status_from_num_track_last_witness :
    ∃ r, Track trackEnv trackState = some r ∧ r.2 = true ∧
      ∃ s1 v, TrackLastFrame trackEnv trackState = some (s1, v) ∧
        (trackState.num_features_tracking_ < v →
          r.1.status_ = FrontendStatus.TRACKING_GOOD) ∧
        (trackState.num_features_tracking_bad_ < v → v ≤ trackState.num_features_tracking_ →
          r.1.status_ = FrontendStatus.TRACKING_BAD) ∧
        (v ≤ trackState.num_features_tracking_bad_ → r.1.status_ = FrontendStatus.LOST) := by
  obtain ⟨h1, h2⟩ := C1_status_from_num_track_last trackEnv trackState (by decide)
  obtain ⟨r, hr⟩ := h2 (leftoverEnv_contract _) (by decide) 1 rfl (by decide)
    (Or.inl (by decide))
  exact ⟨r, hr, h1 r hr⟩

/-- C1 fails as stated, whatever int the call of `TrackLastFrame` leaves.
Two states in status TRACKING_BAD with thresholds 2 > 1 and three tracked
points: in `trackState` one point has a map point and the inlier count is 1,
not above the lower threshold, so the statement gives LOST; in `mappedState`
all three have one and the inlier count is 3, above the upper threshold, so
the statement gives TRACKING_GOOD.  For every int `v` the call may leave,
`Track` leaves a status other than LOST for the first or other than
TRACKING_GOOD for the second; with the leftover -10208 it leaves LOST for the
second. -/
theorem C1_counterexample :
    (trackState.status_ = FrontendStatus.TRACKING_BAD ∧
      mappedState.status_ = FrontendStatus.TRACKING_BAD ∧
      trackState.num_features_tracking_bad_ = 1 ∧ trackState.num_features_tracking_ = 2 ∧
      mappedState.num_features_tracking_bad_ = 1 ∧ mappedState.num_features_tracking_ = 2) ∧
    (∀ v : Int,
      ((TrackLastFrame (leftoverEnv v) trackState).bind fun r =>
        (EstimateCurrentPose (leftoverEnv v) r.1).map fun e => e.value) = some 1 ∧
      ((TrackLastFrame (leftoverEnv v) mappedState).bind fun r =>
        (EstimateCurrentPose (leftoverEnv v) r.1).map fun e => e.value) = some 3 ∧
      ((Track (leftoverEnv v) trackState).map (fun r => r.1.status_) ≠
          some FrontendStatus.LOST ∨
        (Track (leftoverEnv v) mappedState).map (fun r => r.1.status_) ≠
          some FrontendStatus.TRACKING_GOOD)) ∧
    (Track (leftoverEnv (-10208)) mappedState).map (fun r => r.1.status_) =
      some FrontendStatus.LOST := by
  refine ⟨by decide, ?_, by decide⟩
  intro v
  refine ⟨by rw [inliers_leftoverEnv]; decide, by rw [inliers_leftoverEnv]; decide, ?_⟩
  rw [Track_leftoverEnv v trackState 0 1 rfl rfl, Track_leftoverEnv v mappedState 0 1 rfl rfl]
  by_cases hv : (2 : Int) < v
  · left
    have : statusFor trackState v = FrontendStatus.TRACKING_GOOD := by
      rw [statusFor, if_pos (by exact hv)]
    rw [this]
    decide
  · right
    have h2 : ¬ v > mappedState.num_features_tracking_ := hv
    intro h
    simp only [Option.some.injEq, statusFor, if_neg h2] at h
    split at h <;> exact absurd h (by decide)

/-- C2 at a failing input. From `trackState` (status TRACKING_BAD, input frame
1) the body of `TrackLastFrame` reaches its closing brace, and from `initState`
(status INITING, input frame 0) the body of `FindFeaturesInRight` does; when
the call that has run off the end of its function does not return, `AddFrame`
does not return either: it neither advances `last_frame_` nor returns `true`.
When that call returns with a leftover int, `AddFrame` returns `true` with
`last_frame_` advanced. -/
theorem C2_AddFrame_does_not_return :
    trackState.status_ = FrontendStatus.TRACKING_BAD ∧
    (TrackLastFrame_body abortEnv { trackState with current_frame_ := some 1 }).isSome = true ∧
    (AddFrame abortEnv trackState 1).isSome = false ∧
    initState.status_ = FrontendStatus.INITING ∧
    ((DetectFeatures abortEnv { initState with current_frame_ := some 0 }).bind fun r =>
      FindFeaturesInRight_body abortEnv r.1).isSome = true ∧
    (AddFrame abortEnv initState 0).isSome = false ∧
    (AddFrame trackEnv trackState 1).map (fun r => (r.2, r.1.last_frame_)) =
      some (true, some 1) := by
  decide

/-- C3, as the code has it. In status LOST, `AddFrame(frame)` ends, returns
`true`, and changes nothing but the two frame references, which both become
`frame`: the status is still LOST, so the next call of `AddFrame` dispatches to
`Reset` again. -/
theorem C3_lost_stays_lost (env : Collaborators) (s : Frontend) (frame : FramePtr)
    (hs : s.status_ = FrontendStatus.LOST) :
    AddFrame env s frame =
        some ({ s with current_frame_ := some frame, last_frame_ := some frame }, true) ∧
      ∀ s', AddFrame env s frame = some (s', true) → s'.status_ = FrontendStatus.LOST := by
  have h : AddFrame env s frame =
      some ({ s with current_frame_ := some frame, last_frame_ := some frame }, true) := by
    simp only [AddFrame, hs, Reset, Option.bind_eq_bind, Option.map_some', Option.some_bind]
    rfl
  refine ⟨h, ?_⟩
  intro s' hs'
  rw [h] at hs'
  simp only [Option.some.injEq, Prod.mk.injEq, and_true] at hs'
  rw [← hs']
  exact hs

/-- C3 as amended, at `lostState` with the input frame 1. -/
theorem C3_lost_stays_lost_witness :
    lostState.status_ = FrontendStatus.LOST ∧
    AddFrame trackEnv lostState 1 =
        some ({ lostState with current_frame_ := some 1, last_frame_ := some 1 }, true) ∧
      ∀ s', AddFrame trackEnv lostState 1 = some (s', true) →
        s'.status_ = FrontendStatus.LOST :=
  ⟨rfl, C3_lost_stays_lost trackEnv lostState 1 rfl⟩

/-- C3 fails as stated: from `lostState`, whose status is LOST, `AddFrame`
leaves the status LOST, which is not INITING. -/
theorem C3_counterexample :
    lostState.status_ = FrontendStatus.LOST ∧
    (AddFrame trackEnv lostState 1).map (fun r => decide (r.1.status_ = FrontendStatus.INITING))
      = some false := by
  decide

/-- C4 at a failing input. One left feature is detected and the tracker finds
no right correspondence, so `FindFeaturesInRight` counts 0 successes, below
`num_features_init_ = 1`; the caller receives 1, and `StereoInit` returns
`true`, sets the status TRACKING_GOOD and inserts the frame as a keyframe. -/
theorem C4_comparison_ignores_count :
    initState.num_features_init_ = 1 ∧
    ((DetectFeatures noMatchEnv initState).bind fun r =>
      FindFeaturesInRight_body noMatchEnv r.1).map Prod.snd = some 0 ∧
    (StereoInit noMatchEnv initState).map
      (fun r => (r.2, r.1.status_, r.1.map_.landmarks_, r.1.map_.keyframes_)) =
        some (true, FrontendStatus.TRACKING_GOOD, [], [0]) := by
  decide

/-- C5 at a failing input. One left feature is detected and the tracker finds
its right correspondence, so there is `N = 1` success, which reaches
`num_features_init_ = 1`; the caller of `FindFeaturesInRight` receives 0, and
`StereoInit` returns `false` without inserting any MapPoint. -/
theorem C5_comparison_blocks_map :
    initState.num_features_init_ = 1 ∧
    ((DetectFeatures oneMatchEnv initState).bind fun r =>
      FindFeaturesInRight_body oneMatchEnv r.1).map Prod.snd = some 1 ∧
    (StereoInit oneMatchEnv initState).map
      (fun r => (r.2, r.1.status_, r.1.map_.landmarks_, r.1.map_.keyframes_)) =
        some (false, FrontendStatus.INITING, [], []) := by
  decide

/-- C6. When the current frame has no left feature yet and the tracker returns
`status` and positions `pts` with one entry per left feature of the previous
frame, the body of `TrackLastFrame` runs to its closing brace, having counted
the successful entries, and whenever the call returns the caller finds the
state the body left; in that state the current frame has as many left
features as `status` has successful entries, and its left features are, in
order, one per successful entry, at the position the tracker reported for that
entry and with the map point reference of the previous frame's feature at that
entry's index. -/
theorem C6_TrackLastFrame_propagates (env : Collaborators) (s : Frontend) (last cur : FramePtr)
    (hlast : s.last_frame_ = some last) (hcur : s.current_frame_ = some cur)
    (hempty : (s.frames cur).features_left_ = [])
    (status : List Bool) (pts : List Point2f)
    (hlk : env.calcOpticalFlowPyrLK (s.frames last).left_img_ (s.frames cur).left_img_
      ((s.frames last).features_left_.map fun kp => kp.position_.pt) [] = (status, pts))
    (hst : status.length = (s.frames last).features_left_.length)
    (hpts : pts.length = (s.frames last).features_left_.length) :
    ∃ s1, TrackLastFrame_body env s = some (s1, ((status.count true : Nat) : Int)) ∧
      (∀ v, env.TrackLastFrame_value = some v → TrackLastFrame env s = some (s1, v)) ∧
      (s1.frames cur).features_left_.length = status.count true ∧
      (s1.frames cur).features_left_.map (fun f => (f.position_, f.map_point_)) =
        ((status.zip (pts.zip (s.frames last).features_left_)).filter fun x => x.1).map
          fun x => (⟨x.2.1, 7⟩, x.2.2.map_point_) := by
  have hbody := TrackLastFrame_body_eq env s last cur hlast hcur status pts hlk hst hpts
  rw [trackedFeatures_length cur status pts _ (by omega) (by omega)] at hbody
  refine ⟨pushLeftAll s cur (trackedFeatures cur status pts (s.frames last).features_left_),
    hbody, ?_, ?_, ?_⟩
  · intro v hv
    simp only [TrackLastFrame, hbody, hv, Option.bind_eq_bind, Option.some_bind]
    rfl
  · rw [pushLeftAll_eq, frames_setFrame_same]
    simp only [hempty, List.nil_append]
    exact trackedFeatures_length cur status pts _ (by omega) (by omega)
  · rw [pushLeftAll_eq, frames_setFrame_same]
    simp only [hempty, List.nil_append]
    exact trackedFeatures_map cur status pts _

/-- C6 at `trackState`, with a tracker that follows the first of the three
points of the previous frame only. -/
theorem C6_TrackLastFrame_propagates_witness :
    ∃ s1, TrackLastFrame_body firstEnv trackState =
        some (s1, (([true, false, false].count true : Nat) : Int)) ∧
      (∀ v, firstEnv.TrackLastFrame_value = some v →
        TrackLastFrame firstEnv trackState = some (s1, v)) ∧
      (s1.frames 1).features_left_.length = [true, false, false].count true ∧
      (s1.frames 1).features_left_.map (fun f => (f.position_, f.map_point_)) =
        (([true, false, false].zip
          (([⟨1, 1⟩, ⟨2, 2⟩, ⟨3, 3⟩] : List Point2f).zip
            (trackState.frames 0).features_left_)).filter fun x => x.1).map
          fun x => (⟨x.2.1, 7⟩, x.2.2.map_point_) :=
  C6_TrackLastFrame_propagates firstEnv trackState 0 1 rfl rfl rfl [true, false, false]
    [⟨1, 1⟩, ⟨2, 2⟩, ⟨3, 3⟩] (by decide) rfl rfl

/-- C7. When `EstimateCurrentPose` ends, for every left feature of the current
frame whose map point reference resolves there is an edge `k` paired with it,
and the feature is flagged outlier exactly when the chi-square statistic of
that edge in the fourth pass (the pass whose estimate is committed to the
frame) is strictly greater than `chi2_th`; at equality the feature is an
inlier. -/
theorem C7_outlier_iff_final_chi2 (env : Collaborators) (s : Frontend) (cur : FramePtr)
    (hcur : s.current_frame_ = some cur) :
    ∃ (r : PoseEstimate) (c : SolveCall),
      EstimateCurrentPose env s = some r ∧ r.solves.length = 4 ∧ r.solves[3]? = some c ∧
      (r.state.frames cur).pose_ = (env.optimize c.estimate c.edges c.iterations).1 ∧
      ∀ i f, (s.frames cur).features_left_[i]? = some f → (s.lock f.map_point_).isSome →
        ∃ k e x f', r.edges[k]? = some (i, e) ∧ c.chi2 env k = some x ∧ e.chi2 = x ∧
          (r.state.frames cur).features_left_[i]? = some f' ∧
          (f'.is_outlier_ = true ↔ chi2_th < x) ∧ (x = chi2_th → f'.is_outlier_ = false) := by
  obtain ⟨R3, R4, L, hret, _, hcoh3, hfst3, _, _, hlen, _, _, he4, hest4, hsol4, _, hv4, hcoh4,
    _, _⟩ := EstimateCurrentPose_spec env s cur hcur
  refine ⟨_, ⟨(s.frames cur).pose_, R3.edges.map fun fe => fe.2.toEdgeTerm, 10⟩, hret, ?_, ?_,
    ?_, ?_⟩
  · simp [hsol4, hlen]
  · simp only [hsol4]
    rw [List.getElem?_append_right (by omega)]
    simp [hlen]
  · simp only [frames_setFrame_same, hest4]
  · intro i f hf hres
    have hi : i ∈ R3.edges.map Prod.fst := by
      rw [hfst3]
      exact mem_buildEdges_fst s env.left_K _ 1 i f hf hres
    obtain ⟨fe3, hfe3, hi3⟩ := List.mem_map.1 hi
    obtain ⟨k, hk⟩ := List.mem_iff_getElem?.1 hfe3
    have hk4 : R4.edges[k]? = some (visit env
        (env.optimize (s.frames cur).pose_ (R3.edges.map fun fe => fe.2.toEdgeTerm) 10).1 3
        R3.features_left_ (fe3.1, if fe3.2.level = 0 then
          { fe3.2 with chi2 :=
              (env.optimize (s.frames cur).pose_
                (R3.edges.map fun fe => fe.2.toEdgeTerm) 10).2 k }
          else fe3.2)) := by
      rw [he4, List.getElem?_map, storeActiveErrors_getElem?, hk]
      simp
    have hchi := visit_store_chi2 env
        (env.optimize (s.frames cur).pose_ (R3.edges.map fun fe => fe.2.toEdgeTerm) 10).1 3
        R3.features_left_ R3.edges hcoh3 fe3 hfe3
        ((env.optimize (s.frames cur).pose_ (R3.edges.map fun fe => fe.2.toEdgeTerm) 10).2 k)
    obtain ⟨fe4, hfe4⟩ : ∃ fe4, fe4 = visit env
        (env.optimize (s.frames cur).pose_ (R3.edges.map fun fe => fe.2.toEdgeTerm) 10).1 3
        R3.features_left_ (fe3.1, if fe3.2.level = 0 then
          { fe3.2 with chi2 :=
              (env.optimize (s.frames cur).pose_
                (R3.edges.map fun fe => fe.2.toEdgeTerm) 10).2 k }
          else fe3.2) := ⟨_, rfl⟩
    rw [← hfe4] at hk4 hchi
    have hfe4_1 : fe4.1 = i := by rw [hfe4, visit_fst]; exact hi3
    have hmem4 : fe4 ∈ R4.edges := List.mem_iff_getElem?.2 ⟨k, hk4⟩
    obtain ⟨hflag, _⟩ := hcoh4 fe4 hmem4
    have hlt : fe4.1 < R4.features_left_.length := hv4.1 fe4 hmem4
    obtain ⟨f', hf'⟩ : ∃ f', R4.features_left_[fe4.1]? = some f' :=
      ⟨_, List.getElem?_eq_getElem hlt⟩
    rw [flagOf_of_getElem? hf'] at hflag
    rw [hfe4_1] at hf'
    refine ⟨k, fe4.2, fe4.2.chi2, f', ?_, ?_, rfl, ?_, ?_, ?_⟩
    · rw [hk4, ← hfe4_1]
    · simp only [SolveCall.chi2, List.getElem?_map, hk, Option.map_some', hchi]
    · simp only [frames_setFrame_same, hf']
    · rw [hflag]; simp
    · intro hx
      rw [hflag, hx]
      simp

/-- C7 at `poseState`. -/
theorem C7_outlier_iff_final_chi2_witness :
    ∃ (r : PoseEstimate) (c : SolveCall),
      EstimateCurrentPose solveEnv poseState = some r ∧ r.solves.length = 4 ∧
      r.solves[3]? = some c ∧
      (r.state.frames 0).pose_ = (solveEnv.optimize c.estimate c.edges c.iterations).1 ∧
      ∀ i f, (poseState.frames 0).features_left_[i]? = some f →
        (poseState.lock f.map_point_).isSome →
        ∃ k e x f', r.edges[k]? = some (i, e) ∧ c.chi2 solveEnv k = some x ∧ e.chi2 = x ∧
          (r.state.frames 0).features_left_[i]? = some f' ∧
          (f'.is_outlier_ = true ↔ chi2_th < x) ∧ (x = chi2_th → f'.is_outlier_ = false) :=
  C7_outlier_iff_final_chi2 solveEnv poseState 0 rfl

/-- C8. `EstimateCurrentPose` ends and returns the inlier count: there is one
edge per left feature of the current frame whose map point reference resolves
(none for an empty or expired reference); the value returned is the number of
edges minus the number of edges whose chi-square in the last pass exceeds
`chi2_th`; it is the number of left features with a resolving reference whose
outlier flag is false at the end; and it lies between 0 and the number of left
features. -/
theorem C8_returns_inlier_count (env : Collaborators) (s : Frontend) (cur : FramePtr)
    (hcur : s.current_frame_ = some cur) :
    ∃ r : PoseEstimate, EstimateCurrentPose env s = some r ∧
      r.edges.map Prod.fst =
        ((s.frames cur).features_left_.enum.filter fun x =>
          (s.lock x.2.map_point_).isSome).map Prod.fst ∧
      r.value = (r.edges.length : Int) -
        (r.edges.countP fun fe => decide (chi2_th < fe.2.chi2) : Nat) ∧
      r.value = ((r.state.frames cur).features_left_.countP fun f =>
        (s.lock f.map_point_).isSome && !f.is_outlier_ : Nat) ∧
      0 ≤ r.value ∧ r.value ≤ (s.frames cur).features_left_.length := by
  obtain ⟨R3, R4, L, hret, _, _, hfst3, _, _, _, _, _, _, _, _, hcnt4, _, hcoh4, hcore4,
    hfst4⟩ := EstimateCurrentPose_spec env s cur hcur
  have hidx : R4.edges.map Prod.fst =
      ((s.frames cur).features_left_.enum.filter fun x =>
        (s.lock x.2.map_point_).isSome).map Prod.fst := by
    rw [hfst4, hfst3, buildEdges_map_fst]
  have hle : R4.edges.length ≤ (s.frames cur).features_left_.length := by
    have h := congrArg List.length hidx
    simp only [List.length_map] at h
    rw [h]
    exact (List.length_filter_le _ _).trans (by simp)
  have hcount : R4.edges.length =
      (R4.edges.countP fun fe => decide (chi2_th < fe.2.chi2)) +
        R4.features_left_.countP fun f => (s.lock f.map_point_).isSome && !f.is_outlier_ := by
    have h1 : R4.features_left_.countP (fun f => (s.lock f.map_point_).isSome && !f.is_outlier_)
        = R4.edges.countP fun fe => !decide (chi2_th < fe.2.chi2) := by
      have hflags := filter_flags R4.features_left_ fun f => (s.lock f.map_point_).isSome
      rw [resolving_slots_of_core, hcore4, ← resolving_slots_of_core, ← hidx, List.map_map]
        at hflags
      have hcoh : R4.edges.map (flagOf R4.features_left_ ∘ Prod.fst) =
          R4.edges.map fun fe => decide (chi2_th < fe.2.chi2) := by
        apply List.map_congr_left
        intro fe hfe
        exact (hcoh4 fe hfe).1
      rw [hcoh] at hflags
      have h2 := congrArg (List.countP fun b : Bool => !b) hflags
      rw [List.countP_map, List.countP_map, List.countP_filter] at h2
      refine Eq.trans ?_ (h2.trans rfl)
      apply List.countP_congr
      intro f _
      simp [Bool.and_comm]
    rw [h1, List.length_eq_countP_add_countP (fun fe => decide (chi2_th < fe.2.chi2)) R4.edges]
    congr 1
    apply List.countP_congr
    intro fe _
    simp
  refine ⟨_, hret, hidx, ?_, ?_, ?_, ?_⟩
  · simp only [hcnt4]
  · simp only [hcnt4, frames_setFrame_same]
    omega
  · simp only [hcnt4]
    have := List.countP_le_length (fun fe : Nat × EdgeProjectionPoseOnly =>
      decide (chi2_th < fe.2.chi2)) (l := R4.edges)
    omega
  · simp only [hcnt4]
    omega

/-- C8 at `poseState`. -/
theorem C8_returns_inlier_count_witness :
    ∃ r : PoseEstimate, EstimateCurrentPose solveEnv poseState = some r ∧
      r.edges.map Prod.fst =
        ((poseState.frames 0).features_left_.enum.filter fun x =>
          (poseState.lock x.2.map_point_).isSome).map Prod.fst ∧
      r.value = (r.edges.length : Int) -
        (r.edges.countP fun fe => decide (chi2_th < fe.2.chi2) : Nat) ∧
      r.value = ((r.state.frames 0).features_left_.countP fun f =>
        (poseState.lock f.map_point_).isSome && !f.is_outlier_ : Nat) ∧
      0 ≤ r.value ∧ r.value ≤ (poseState.frames 0).features_left_.length :=
  C8_returns_inlier_count solveEnv poseState 0 rfl

/-- C9. When the current frame has at least `num_features_needed_for_keyframe_`
left features, `InsertKeyframe` returns `false` and the whole state (the map,
the frames, the status) is the one it was called in. -/
theorem C9_InsertKeyframe_suppressed (env : Collaborators) (s : Frontend) (cur : FramePtr)
    (hcur : s.current_frame_ = some cur)
    (h : s.num_features_needed_for_keyframe_ ≤ (s.frames cur).features_left_.length) :
    InsertKeyframe env s = some (s, false) := by
  simp [InsertKeyframe, hcur, h]

/-- C9 at a frame with two left features and threshold two. -/
theorem C9_InsertKeyframe_suppressed_witness :
    (sampleState FrontendStatus.TRACKING_GOOD [sampleFeature 1 none, sampleFeature 2 none]
        50 10 5 2).num_features_needed_for_keyframe_ ≤
      ((sampleState FrontendStatus.TRACKING_GOOD [sampleFeature 1 none, sampleFeature 2 none]
        50 10 5 2).frames 0).features_left_.length ∧
    InsertKeyframe (sampleEnv [] lkAll (fun _ => 0) (some 0) (some 0) (some true))
      (sampleState FrontendStatus.TRACKING_GOOD [sampleFeature 1 none, sampleFeature 2 none]
        50 10 5 2) =
      some (sampleState FrontendStatus.TRACKING_GOOD [sampleFeature 1 none, sampleFeature 2 none]
        50 10 5 2, false) :=
  ⟨by decide, C9_InsertKeyframe_suppressed _ _ 0 rfl (by decide)⟩

/-- C10. `EstimateCurrentPose` ends after exactly four calls of the solver,
each with an iteration bound of 10 and with the pose vertex reset to the pose
the frame had on entry; the first call sees the edges as built, the pose
committed to the frame is the estimate produced by the fourth call, and the
edges of the fourth call are those of the first with new levels and without
robust kernel. -/
theorem C10_four_solves_from_seed (env : Collaborators) (s : Frontend) (cur : FramePtr)
    (hcur : s.current_frame_ = some cur) :
    ∃ (r : PoseEstimate) (c0 c1 c2 c3 : SolveCall),
      EstimateCurrentPose env s = some r ∧
      r.solves = [c0, c1, c2, c3] ∧
      (∀ c ∈ r.solves, c.iterations = 10 ∧ c.estimate = (s.frames cur).pose_) ∧
      c0.edges = (buildEdges s env.left_K (s.frames cur).features_left_.enum 1).map
        (fun fe => fe.2.toEdgeTerm) ∧
      (r.state.frames cur).pose_ = (env.optimize (s.frames cur).pose_ c3.edges 10).1 ∧
      ∃ levels : List Nat, levels.length = c0.edges.length ∧
        c3.edges = List.zipWith (fun t l => { t with level := l, robustKernel := false })
          c0.edges levels := by
  obtain ⟨R3, R4, L, hret, _, _, _, hfix3, hker3, hlen, hall, hhead, _, hest4, hsol4, _, _, _,
    _, _⟩ := EstimateCurrentPose_spec env s cur hcur
  match L, hlen, hall, hhead, hsol4 with
  | [c0, c1, c2], _, hall, hhead, hsol4 =>
    simp only [List.head?_cons, Option.some.injEq] at hhead
    refine ⟨_, c0, c1, c2, ⟨(s.frames cur).pose_, R3.edges.map fun fe => fe.2.toEdgeTerm, 10⟩,
      hret, ?_, ?_, ?_, ?_, ?_⟩
    · simpa using hsol4
    · intro c hc
      simp only [hsol4, List.mem_append, List.mem_singleton] at hc
      rcases hc with hc | hc
      · exact ⟨(hall c hc).2, (hall c hc).1⟩
      · subst hc; exact ⟨rfl, rfl⟩
    · rw [hhead]
    · simp only [frames_setFrame_same, hest4]
    · refine ⟨(R3.edges.map fun fe => fe.2.toEdgeTerm).map fun t => t.level, ?_, ?_⟩
      · have h := congrArg List.length hfix3
        simp only [List.length_map] at h
        simp only [hhead, List.length_map, h]
      · rw [hhead]
        apply eq_zipWith_levels
        · simpa only [List.map_map] using hfix3
        · intro t ht
          obtain ⟨fe, hfe, rfl⟩ := List.mem_map.1 ht
          exact hker3 fe hfe

/-- C10 at `poseState`. -/
theorem C10_four_solves_from_seed_witness :
    ∃ (r : PoseEstimate) (c0 c1 c2 c3 : SolveCall),
      EstimateCurrentPose solveEnv poseState = some r ∧
      r.solves = [c0, c1, c2, c3] ∧
      (∀ c ∈ r.solves, c.iterations = 10 ∧ c.estimate = (poseState.frames 0).pose_) ∧
      c0.edges = (buildEdges poseState solveEnv.left_K
        (poseState.frames 0).features_left_.enum 1).map (fun fe => fe.2.toEdgeTerm) ∧
      (r.state.frames 0).pose_ = (solveEnv.optimize (poseState.frames 0).pose_ c3.edges 10).1 ∧
      ∃ levels : List Nat, levels.length = c0.edges.length ∧
        c3.edges = List.zipWith (fun t l => { t with level := l, robustKernel := false })
          c0.edges levels :=
  C10_four_solves_from_seed solveEnv poseState 0 rfl

end myslam
